import Mathlib

/-!
Verification of the hoa-utils HOA (Hanoi Omega-Automata) reader/writer.

This file gives a shallow embedding, in Lean 4, of the core of the
hoa-utils Python library:

* the boolean-algebra core (`hoa/ast/boolean_expression.py`): the
  `MonotoneOp` metaclass interception and the helper
  `_simplify_monotone_op_operands`, for both the full (label) algebra and
  the positive (acceptance) algebra;
* the acceptance formulas (`hoa/ast/acceptance.py`) with `accepting_sets`;
* the label formulas (`hoa/ast/label.py`) with `propositions`;
* the document model (`hoa/core.py`);
* the bottom-up parse-tree reductions of `HOATransformer`
  (`hoa/parsers.py`);
* the canonical printer (`hoa/dumpers.py`, `hoa/printers.py`).

Python dynamic behaviour is embedded explicitly: operations that raise
exceptions in Python (TypeError on a missing dunder method, AssertionError
from a failed assert, ValueError from max() on an empty set, IndexError on
an out-of-range subscript) are modelled with `Except PyErr`.

Formula operand sequences are represented by the companion types
`LabelList` and `AccList` (isomorphic to `List LabelExpr` and
`List AccCond` through `toList`/`ofList`) so that every recursive
function on formulas is structurally recursive and evaluates inside the
kernel.
-/

/-- The Python exception kinds relevant to this code base. -/
inductive PyErr where
  | typeError
  | valueError
  | assertionError
  | indexError
  | keyError
deriving DecidableEq, Repr

/-- `AtomType` from `hoa/ast/acceptance.py`: the `Fin`/`Inf` kinds. -/
inductive AtomType where
  | fin
  | inf
deriving DecidableEq, Repr

mutual

/-- The label-formula algebra (`LabelExpression` in `hoa/ast/label.py`).

Constructor correspondence with the Python classes:
`land` = `_And` nodes, `lor` = `_Or` nodes, `lnot` = `_Not` nodes,
`atom` = `LabelAtom` (a proposition index), `lalias` = `LabelAlias`
(name plus resolved expression), `tt` = `TrueFormula`,
`ff` = `FalseFormula`. Structural equality of the Lean terms coincides
with the structural equality of the frozen Python dataclasses. -/
inductive LabelExpr where
  | land (operands : LabelList)
  | lor (operands : LabelList)
  | lnot (argument : LabelExpr)
  | atom (proposition : Nat)
  | lalias (aliasName : String) (expression : LabelExpr)
  | tt
  | ff

/-- Operand sequences of label formulas (the `operands` tuple of a
`BinaryOp`). -/
inductive LabelList where
  | nil
  | cons (head : LabelExpr) (tail : LabelList)

end

/-- View a `LabelList` as a `List`. -/
def LabelList.toList : LabelList → List LabelExpr
  | .nil => []
  | .cons x xs => x :: xs.toList

/-- Build a `LabelList` from a `List`. -/
def LabelList.ofList : List LabelExpr → LabelList
  | [] => .nil
  | x :: xs => .cons x (LabelList.ofList xs)

theorem labelList_toList_ofList (l : List LabelExpr) : (LabelList.ofList l).toList = l := by
  induction l with
  | nil => rfl
  | cons x xs ih => simp [LabelList.ofList, LabelList.toList, ih]

theorem labelList_ofList_toList : (l : LabelList) → LabelList.ofList l.toList = l
  | .nil => rfl
  | .cons x xs => by simp [LabelList.toList, LabelList.ofList, labelList_ofList_toList xs]

mutual

/-- Boolean structural equality on label formulas (the dataclass `==`). -/
def LabelExpr.beq : LabelExpr → LabelExpr → Bool
  | .land a, .land b => LabelList.beq a b
  | .lor a, .lor b => LabelList.beq a b
  | .lnot a, .lnot b => LabelExpr.beq a b
  | .atom a, .atom b => a == b
  | .lalias n e, .lalias m f => n == m && LabelExpr.beq e f
  | .tt, .tt => true
  | .ff, .ff => true
  | _, _ => false

/-- Pointwise `LabelExpr.beq` on operand sequences. -/
def LabelList.beq : LabelList → LabelList → Bool
  | .nil, .nil => true
  | .cons x xs, .cons y ys => LabelExpr.beq x y && LabelList.beq xs ys
  | _, _ => false

end

mutual

/-- Soundness of `LabelExpr.beq`. -/
theorem labelExpr_eq_of_beq : (a b : LabelExpr) → LabelExpr.beq a b = true → a = b
  | .land a, .land b, h => by
      rw [labelList_eq_of_beq a b (by simpa [LabelExpr.beq] using h)]
  | .lor a, .lor b, h => by
      rw [labelList_eq_of_beq a b (by simpa [LabelExpr.beq] using h)]
  | .lnot a, .lnot b, h => by
      rw [labelExpr_eq_of_beq a b (by simpa [LabelExpr.beq] using h)]
  | .atom a, .atom b, h => by simp [LabelExpr.beq] at h; rw [h]
  | .lalias n e, .lalias m f, h => by
      simp only [LabelExpr.beq, Bool.and_eq_true, beq_iff_eq] at h
      rw [h.1, labelExpr_eq_of_beq e f h.2]
  | .tt, .tt, _ => rfl
  | .ff, .ff, _ => rfl

/-- Soundness of `LabelList.beq`. -/
theorem labelList_eq_of_beq : (a b : LabelList) → LabelList.beq a b = true → a = b
  | .nil, .nil, _ => rfl
  | .cons x xs, .cons y ys, h => by
      simp only [LabelList.beq, Bool.and_eq_true] at h
      rw [labelExpr_eq_of_beq x y h.1, labelList_eq_of_beq xs ys h.2]

end

mutual

/-- Reflexivity of `LabelExpr.beq`. -/
theorem labelExpr_beq_refl : (a : LabelExpr) → LabelExpr.beq a a = true
  | .land a => by simpa [LabelExpr.beq] using labelList_beq_refl a
  | .lor a => by simpa [LabelExpr.beq] using labelList_beq_refl a
  | .lnot a => by simpa [LabelExpr.beq] using labelExpr_beq_refl a
  | .atom a => by simp [LabelExpr.beq]
  | .lalias n e => by simpa [LabelExpr.beq] using labelExpr_beq_refl e
  | .tt => rfl
  | .ff => rfl

/-- Reflexivity of `LabelList.beq`. -/
theorem labelList_beq_refl : (a : LabelList) → LabelList.beq a a = true
  | .nil => rfl
  | .cons x xs => by
      simp only [LabelList.beq, Bool.and_eq_true]
      exact ⟨labelExpr_beq_refl x, labelList_beq_refl xs⟩

end

instance : DecidableEq LabelExpr := fun a b =>
  if h : LabelExpr.beq a b = true then .isTrue (labelExpr_eq_of_beq a b h)
  else .isFalse (fun he => h (he ▸ labelExpr_beq_refl a))

instance : DecidableEq LabelList := fun a b =>
  if h : LabelList.beq a b = true then .isTrue (labelList_eq_of_beq a b h)
  else .isFalse (fun he => h (he ▸ labelList_beq_refl a))

/-- The well-typed acceptance atom (`AcceptanceAtom` in
`hoa/ast/acceptance.py`) as produced by `Fin`/`Inf`/`NotFin`/`NotInf`. -/
structure AccAtom where
  atom_type : AtomType
  acceptance_set : Nat
  negated : Bool
deriving DecidableEq, Repr

mutual

/-- The acceptance-formula algebra (`AcceptanceCondition` in
`hoa/ast/acceptance.py`): `pand` = `_PositiveAnd` nodes, `por` =
`_PositiveOr` nodes, `atom` = `AcceptanceAtom`, `tt` = `TrueFormula`,
`ff` = `FalseFormula`. -/
inductive AccCond where
  | pand (operands : AccList)
  | por (operands : AccList)
  | atom (a : AccAtom)
  | tt
  | ff

/-- Operand sequences of acceptance formulas. -/
inductive AccList where
  | nil
  | cons (head : AccCond) (tail : AccList)

end

/-- View an `AccList` as a `List`. -/
def AccList.toList : AccList → List AccCond
  | .nil => []
  | .cons x xs => x :: xs.toList

/-- Build an `AccList` from a `List`. -/
def AccList.ofList : List AccCond → AccList
  | [] => .nil
  | x :: xs => .cons x (AccList.ofList xs)

theorem accList_toList_ofList (l : List AccCond) : (AccList.ofList l).toList = l := by
  induction l with
  | nil => rfl
  | cons x xs ih => simp [AccList.ofList, AccList.toList, ih]

theorem accList_ofList_toList : (l : AccList) → AccList.ofList l.toList = l
  | .nil => rfl
  | .cons x xs => by simp [AccList.toList, AccList.ofList, accList_ofList_toList xs]

mutual

/-- Boolean structural equality on acceptance formulas. -/
def AccCond.beq : AccCond → AccCond → Bool
  | .pand a, .pand b => AccList.beq a b
  | .por a, .por b => AccList.beq a b
  | .atom a, .atom b => a == b
  | .tt, .tt => true
  | .ff, .ff => true
  | _, _ => false

/-- Pointwise `AccCond.beq` on operand sequences. -/
def AccList.beq : AccList → AccList → Bool
  | .nil, .nil => true
  | .cons x xs, .cons y ys => AccCond.beq x y && AccList.beq xs ys
  | _, _ => false

end

mutual

/-- Soundness of `AccCond.beq`. -/
theorem accCond_eq_of_beq : (a b : AccCond) → AccCond.beq a b = true → a = b
  | .pand a, .pand b, h => by
      rw [accList_eq_of_beq a b (by simpa [AccCond.beq] using h)]
  | .por a, .por b, h => by
      rw [accList_eq_of_beq a b (by simpa [AccCond.beq] using h)]
  | .atom a, .atom b, h => by simp [AccCond.beq] at h; rw [h]
  | .tt, .tt, _ => rfl
  | .ff, .ff, _ => rfl

/-- Soundness of `AccList.beq`. -/
theorem accList_eq_of_beq : (a b : AccList) → AccList.beq a b = true → a = b
  | .nil, .nil, _ => rfl
  | .cons x xs, .cons y ys, h => by
      simp only [AccList.beq, Bool.and_eq_true] at h
      rw [accCond_eq_of_beq x y h.1, accList_eq_of_beq xs ys h.2]

end

mutual

/-- Reflexivity of `AccCond.beq`. -/
theorem accCond_beq_refl : (a : AccCond) → AccCond.beq a a = true
  | .pand a => by simpa [AccCond.beq] using accList_beq_refl a
  | .por a => by simpa [AccCond.beq] using accList_beq_refl a
  | .atom a => by simp [AccCond.beq]
  | .tt => rfl
  | .ff => rfl

/-- Reflexivity of `AccList.beq`. -/
theorem accList_beq_refl : (a : AccList) → AccList.beq a a = true
  | .nil => rfl
  | .cons x xs => by
      simp only [AccList.beq, Bool.and_eq_true]
      exact ⟨accCond_beq_refl x, accList_beq_refl xs⟩

end

instance : DecidableEq AccCond := fun a b =>
  if h : AccCond.beq a b = true then .isTrue (accCond_eq_of_beq a b h)
  else .isFalse (fun he => h (he ▸ accCond_beq_refl a))

instance : DecidableEq AccList := fun a b =>
  if h : AccList.beq a b = true then .isTrue (accList_eq_of_beq a b h)
  else .isFalse (fun he => h (he ▸ accList_beq_refl a))

/-- `Fin(k)` from `hoa/ast/acceptance.py`. -/
def finAtom (k : Nat) : AccAtom := ⟨AtomType.fin, k, false⟩

/-- `Inf(k)` from `hoa/ast/acceptance.py`. -/
def infAtom (k : Nat) : AccAtom := ⟨AtomType.inf, k, false⟩

/-- `AcceptanceAtom.__invert__`: toggles the `negated` flag. -/
def accAtomInvert (a : AccAtom) : AccAtom := ⟨a.atom_type, a.acceptance_set, !a.negated⟩

/-- `list(dict.fromkeys(operands))`: deduplication keeping the first
occurrence of each element, preserving order (the first step of
`_simplify_monotone_op_operands`). -/
def dedupFirstAux [DecidableEq α] : List α → List α → List α
  | [], _ => []
  | x :: xs, seen => if x ∈ seen then dedupFirstAux xs seen else x :: dedupFirstAux xs (x :: seen)

/-- Entry point of `dedupFirstAux` with no elements seen yet. -/
def dedupFirst [DecidableEq α] (l : List α) : List α := dedupFirstAux l []

example : dedupFirst [1, 2, 1, 3, 2] = [1, 2, 3] := by decide

/-- The label-algebra negation `~` (`operator.invert`). `LabelAtom`,
`LabelAlias`, `_And`, `_Or` and `_Not` all receive an `__invert__`
method from `boolean_op_wrapper` that wraps the operand in a `_Not`
node. `TrueFormula` and `FalseFormula` define only `__neg__` (unary
minus), not `__invert__`, so applying `~` to a literal raises a
TypeError in Python. -/
def labelInvert : LabelExpr → Except PyErr LabelExpr
  | .tt => .error .typeError
  | .ff => .error .typeError
  | e => .ok (.lnot e)

mutual

/-- Contribution of one operand to the depth-first shift-up pass of
`_simplify_monotone_op_operands` at `cls = _And` on label formulas: a
`_And` node is replaced by the flattening of its own operands, any
other element is kept as-is. -/
def flattenLAndE : LabelExpr → List LabelExpr
  | .land ops => flattenLAndL ops
  | x => [x]

/-- Flattening of an operand sequence at `cls = _And`. -/
def flattenLAndL : LabelList → List LabelExpr
  | .nil => []
  | .cons x xs => flattenLAndE x ++ flattenLAndL xs

end

/-- The depth-first shift-up loop at the end of
`_simplify_monotone_op_operands` at `cls = _And`: the stack-based Python
loop pops the pending elements left to right and, when the popped
element is a `_And` node, pushes the operands of that node back in order, so
the processed sequence evolves by `land ops :: rest ↦ ops ++ rest` and
the result is the left-to-right concatenation of the per-element
flattenings (`flattenLAnd_land_cons` and `flattenLAnd_append` below
re-establish exactly those two loop equations). -/
def flattenLAnd : List LabelExpr → List LabelExpr
  | [] => []
  | x :: rest => flattenLAndE x ++ flattenLAnd rest

theorem flattenLAnd_append (a b : List LabelExpr) :
    flattenLAnd (a ++ b) = flattenLAnd a ++ flattenLAnd b := by
  induction a with
  | nil => rfl
  | cons x xs ih => simp [flattenLAnd, ih]

theorem flattenLAndL_eq_toList : (ops : LabelList) → flattenLAndL ops = flattenLAnd ops.toList
  | .nil => rfl
  | .cons x xs => by
      simp [flattenLAndL, LabelList.toList, flattenLAnd, flattenLAndL_eq_toList xs]

theorem flattenLAnd_land_cons (ops : LabelList) (rest : List LabelExpr) :
    flattenLAnd (.land ops :: rest) = flattenLAnd (ops.toList ++ rest) := by
  simp [flattenLAnd, flattenLAndE, flattenLAnd_append, flattenLAndL_eq_toList]

mutual

/-- `flattenLAndE` at `cls = _Or`. -/
def flattenLOrE : LabelExpr → List LabelExpr
  | .lor ops => flattenLOrL ops
  | x => [x]

/-- `flattenLAndL` at `cls = _Or`. -/
def flattenLOrL : LabelList → List LabelExpr
  | .nil => []
  | .cons x xs => flattenLOrE x ++ flattenLOrL xs

end

/-- The shift-up loop at `cls = _Or` on label formulas. -/
def flattenLOr : List LabelExpr → List LabelExpr
  | [] => []
  | x :: rest => flattenLOrE x ++ flattenLOr rest

/-- Either a Python tuple of operands or a bare (non-sequence) formula:
the two possible result shapes of `_simplify_monotone_op_operands`
(its absorbing-element branch returns `cls._absorbing` itself, not a
tuple). -/
inductive SimpRes (F : Type) where
  | tup (l : List F)
  | bare (e : F)

instance [DecidableEq F] : DecidableEq (SimpRes F) := fun x y =>
  match x, y with
  | .tup a, .tup b =>
    if h : a = b then .isTrue (congrArg _ h) else .isFalse (fun he => h (SimpRes.tup.inj he))
  | .bare a, .bare b =>
    if h : a = b then .isTrue (congrArg _ h) else .isFalse (fun he => h (SimpRes.bare.inj he))
  | .tup _, .bare _ => .isFalse (fun he => SimpRes.noConfusion he)
  | .bare _, .tup _ => .isFalse (fun he => SimpRes.noConfusion he)

instance [DecidableEq ε] [DecidableEq α] : DecidableEq (Except ε α) := fun x y =>
  match x, y with
  | .ok a, .ok b =>
    if h : a = b then .isTrue (congrArg _ h) else .isFalse (fun he => h (Except.ok.inj he))
  | .error a, .error b =>
    if h : a = b then .isTrue (congrArg _ h) else .isFalse (fun he => h (Except.error.inj he))
  | .ok _, .error _ => .isFalse (fun he => Except.noConfusion he)
  | .error _, .ok _ => .isFalse (fun he => Except.noConfusion he)

/-- `_simplify_monotone_op_operands(_And, *operands)` on label formulas.
Steps, in source order: deduplicate keeping first occurrences; if the
result is empty return the 1-tuple of `~absorbing` (which raises
TypeError, since the absorbing element `FALSE` has no `__invert__`); if
a single operand remains return it as a 1-tuple; if the absorbing
element `FALSE` occurs among the operands return it bare (not as a
tuple); otherwise flatten nested same-operator nodes. -/
def simplifyLAnd (operands : List LabelExpr) : Except PyErr (SimpRes LabelExpr) :=
  let ops := dedupFirst operands
  if ops.length = 0 then (labelInvert .ff).map (fun x => SimpRes.tup [x])
  else if ops.length = 1 then .ok (.tup ops)
  else if .ff ∈ ops then .ok (.bare .ff)
  else .ok (.tup (flattenLAnd ops))

/-- `_simplify_monotone_op_operands(_Or, *operands)` on label formulas;
the absorbing element of `_Or` is `TRUE`. -/
def simplifyLOr (operands : List LabelExpr) : Except PyErr (SimpRes LabelExpr) :=
  let ops := dedupFirst operands
  if ops.length = 0 then (labelInvert .tt).map (fun x => SimpRes.tup [x])
  else if ops.length = 1 then .ok (.tup ops)
  else if .tt ∈ ops then .ok (.bare .tt)
  else .ok (.tup (flattenLOr ops))

/-- `MonotoneOp.__call__` for `_And` on label formulas: simplify the
operands, return the only operand if exactly one remains, otherwise
build the node. When the simplification returned the bare absorbing
element, `len(operands)` is evaluated on a `TrueFormula`/`FalseFormula`
instance, which has no `__len__` and raises TypeError. -/
def mkLAnd (args : List LabelExpr) : Except PyErr LabelExpr :=
  match simplifyLAnd args with
  | .error e => .error e
  | .ok (.bare _) => .error .typeError
  | .ok (.tup [x]) => .ok x
  | .ok (.tup l) => .ok (.land (LabelList.ofList l))

/-- `MonotoneOp.__call__` for `_Or` on label formulas. -/
def mkLOr (args : List LabelExpr) : Except PyErr LabelExpr :=
  match simplifyLOr args with
  | .error e => .error e
  | .ok (.bare _) => .error .typeError
  | .ok (.tup [x]) => .ok x
  | .ok (.tup l) => .ok (.lor (LabelList.ofList l))

/-- The binary `a & b` on label formulas (`operator.and_`, as used by
`HOATransformer.and_label_expr`): literals have no `__and__` (and no
class defines `__rand__`), so a literal left operand raises TypeError;
otherwise `__and__` from `boolean_op_wrapper` calls `_And(a, b)`. -/
def pyLAnd (a b : LabelExpr) : Except PyErr LabelExpr :=
  match a with
  | .tt => .error .typeError
  | .ff => .error .typeError
  | _ => mkLAnd [a, b]

/-- The binary `a | b` on label formulas (`operator.or_`). -/
def pyLOr (a b : LabelExpr) : Except PyErr LabelExpr :=
  match a with
  | .tt => .error .typeError
  | .ff => .error .typeError
  | _ => mkLOr [a, b]

mutual

/-- `flattenLAndE` for the positive algebra (`cls = _PositiveAnd`). -/
def flattenPAndE : AccCond → List AccCond
  | .pand ops => flattenPAndL ops
  | x => [x]

/-- `flattenLAndL` for `cls = _PositiveAnd`. -/
def flattenPAndL : AccList → List AccCond
  | .nil => []
  | .cons x xs => flattenPAndE x ++ flattenPAndL xs

end

/-- The shift-up loop for `_PositiveAnd`. -/
def flattenPAnd : List AccCond → List AccCond
  | [] => []
  | x :: rest => flattenPAndE x ++ flattenPAnd rest

mutual

/-- `flattenLAndE` for `cls = _PositiveOr`. -/
def flattenPOrE : AccCond → List AccCond
  | .por ops => flattenPOrL ops
  | x => [x]

/-- `flattenLAndL` for `cls = _PositiveOr`. -/
def flattenPOrL : AccList → List AccCond
  | .nil => []
  | .cons x xs => flattenPOrE x ++ flattenPOrL xs

end

/-- The shift-up loop for `_PositiveOr`. -/
def flattenPOr : List AccCond → List AccCond
  | [] => []
  | x :: rest => flattenPOrE x ++ flattenPOr rest

/-- The empty-operand branch for the positive algebra: `~TRUE` and
`~FALSE` raise TypeError exactly as in the label algebra (the literal
classes are shared between the two algebras and have no `__invert__`). -/
def accLiteralInvert : AccCond → Except PyErr AccCond
  | .tt => .error .typeError
  | .ff => .error .typeError
  | e => .ok e

/-- `_simplify_monotone_op_operands(_PositiveAnd, *operands)`. -/
def simplifyPAnd (operands : List AccCond) : Except PyErr (SimpRes AccCond) :=
  let ops := dedupFirst operands
  if ops.length = 0 then (accLiteralInvert .ff).map (fun x => SimpRes.tup [x])
  else if ops.length = 1 then .ok (.tup ops)
  else if .ff ∈ ops then .ok (.bare .ff)
  else .ok (.tup (flattenPAnd ops))

/-- `_simplify_monotone_op_operands(_PositiveOr, *operands)`. -/
def simplifyPOr (operands : List AccCond) : Except PyErr (SimpRes AccCond) :=
  let ops := dedupFirst operands
  if ops.length = 0 then (accLiteralInvert .tt).map (fun x => SimpRes.tup [x])
  else if ops.length = 1 then .ok (.tup ops)
  else if .tt ∈ ops then .ok (.bare .tt)
  else .ok (.tup (flattenPOr ops))

/-- `MonotoneOp.__call__` for `_PositiveAnd`. -/
def mkPAnd (args : List AccCond) : Except PyErr AccCond :=
  match simplifyPAnd args with
  | .error e => .error e
  | .ok (.bare _) => .error .typeError
  | .ok (.tup [x]) => .ok x
  | .ok (.tup l) => .ok (.pand (AccList.ofList l))

/-- `MonotoneOp.__call__` for `_PositiveOr`. -/
def mkPOr (args : List AccCond) : Except PyErr AccCond :=
  match simplifyPOr args with
  | .error e => .error e
  | .ok (.bare _) => .error .typeError
  | .ok (.tup [x]) => .ok x
  | .ok (.tup l) => .ok (.por (AccList.ofList l))

/-- The binary `a & b` on acceptance formulas, as used by
`HOATransformer.and_acceptance_cond`: atoms and positive nodes have an
`__and__` that calls `_PositiveAnd(a, b)`; literals have none. -/
def pyPAnd (a b : AccCond) : Except PyErr AccCond :=
  match a with
  | .tt => .error .typeError
  | .ff => .error .typeError
  | _ => mkPAnd [a, b]

/-- The binary `a | b` on acceptance formulas. -/
def pyPOr (a b : AccCond) : Except PyErr AccCond :=
  match a with
  | .tt => .error .typeError
  | .ff => .error .typeError
  | _ => mkPOr [a, b]

example : mkLAnd [.atom 0, .atom 1] = .ok (.land (.cons (.atom 0) (.cons (.atom 1) .nil))) := by
  decide
example : mkLAnd [.atom 0, .atom 0] = .ok (.atom 0) := by decide
example : mkLAnd [.atom 0, .ff] = .error .typeError := by decide
example : mkLAnd [] = .error .typeError := by decide
example :
    mkLAnd [.land (.cons (.atom 0) (.cons (.atom 1) .nil)), .atom 0]
      = .ok (.land (.cons (.atom 0) (.cons (.atom 1) (.cons (.atom 0) .nil)))) := by decide
example : mkLAnd [.tt, .atom 0] = .ok (.land (.cons .tt (.cons (.atom 0) .nil))) := by decide
example : pyPAnd (.atom (infAtom 0)) (.atom (infAtom 1))
    = .ok (.pand (.cons (.atom (infAtom 0)) (.cons (.atom (infAtom 1)) .nil))) := by decide

mutual

/-- `accepting_sets` from `hoa/ast/acceptance.py`: for a `BinaryOp` the
union of the accepting sets of the operands (`reduce` of `set.union`
over the operand list — a left fold whose result, the operands being
non-empty for every constructed node, is the n-ary union computed
here); for an atom the singleton of its `acceptance_set`; for the
literals the empty set (the `singledispatch` default). -/
def accSets : AccCond → Finset Nat
  | .pand ops => accSetsL ops
  | .por ops => accSetsL ops
  | .atom a => {a.acceptance_set}
  | .tt => ∅
  | .ff => ∅

/-- Union of `accSets` over an operand sequence. -/
def accSetsL : AccList → Finset Nat
  | .nil => ∅
  | .cons x xs => accSets x ∪ accSetsL xs

end

/-- `nb_accepting_sets` from `hoa/ast/acceptance.py`. -/
def nbAcceptingSets (c : AccCond) : Nat := (accSets c).card

/-- `HOATransformer.acceptance` (`hoa/parsers.py`): given the declared
count and the reduced condition, recompute the accepting sets and check
`max(accepting_sets_) == len(accepting_sets_) - 1 == expected - 1 ==
actual - 1` with `assert_`. Python evaluates `max(...)` first, and
`max` of an empty set raises ValueError before the comparison happens;
a false comparison raises AssertionError. Arithmetic on the counts is
over the integers (`expected - 1` may be `-1`). -/
def acceptanceReduce (expected : Nat) (cond : AccCond) : Except PyErr AccCond :=
  if h : (accSets cond).Nonempty then
    if ((accSets cond).max' h : Int) = ((accSets cond).card : Int) - 1
        ∧ ((accSets cond).card : Int) - 1 = (expected : Int) - 1
        ∧ (expected : Int) - 1 = (nbAcceptingSets cond : Int) - 1 then .ok cond
    else .error .assertionError
  else .error .valueError

mutual

/-- `propositions` from `hoa/ast/label.py`: union over `BinaryOp`
operands, recursion through `UnaryOp` and through the resolved
expression of a `LabelAlias`, singleton for a `LabelAtom`, empty set
for the literals (the `singledispatch` default). -/
def propositions : LabelExpr → Finset Nat
  | .land ops => propositionsL ops
  | .lor ops => propositionsL ops
  | .lnot a => propositions a
  | .atom p => {p}
  | .lalias _ e => propositions e
  | .tt => ∅
  | .ff => ∅

/-- Union of `propositions` over an operand sequence. -/
def propositionsL : LabelList → Finset Nat
  | .nil => ∅
  | .cons x xs => propositions x ∪ propositionsL xs

end

/-- A dynamically-typed Python value that can sit in an
`AcceptanceAtom` field: either an integer or an `AtomType` member
(Python dataclasses do not check the declared field types). -/
inductive PyVal where
  | int (n : Nat)
  | ty (t : AtomType)
deriving DecidableEq, Repr

/-- An `AcceptanceAtom` as actually constructed by the parser, with
dynamically-typed fields (declared field order: `atom_type`,
`acceptance_set`, `negated`). -/
structure RawAcceptanceAtom where
  atom_type : PyVal
  acceptance_set : PyVal
  negated : Bool
deriving DecidableEq, Repr

/-- The view of a well-typed atom as a raw Python object. -/
def AccAtom.toRaw (a : AccAtom) : RawAcceptanceAtom :=
  ⟨.ty a.atom_type, .int a.acceptance_set, a.negated⟩

/-- `AtomType(args[0])`: enum lookup by value string; an unknown value
raises ValueError. -/
def atomTypeOfString (s : String) : Except PyErr AtomType :=
  if s = "Fin" then .ok .fin
  else if s = "Inf" then .ok .inf
  else .error .valueError

/-- `HOATransformer.atom_acceptance_cond`: reduces `Fin(k)` / `Inf(k)`
to `AcceptanceAtom(atom_type, accepting_set, False)`. -/
def atomAcceptanceCondReduce (tok : String) (k : Nat) : Except PyErr RawAcceptanceAtom := do
  let t ← atomTypeOfString tok
  .ok ⟨.ty t, .int k, false⟩

/-- `HOATransformer.not_acceptance_cond`: reduces `Fin(!k)` / `Inf(!k)`.
The source constructs `AcceptanceAtom(accepting_set, atom_type, True)`,
passing the integer as the first positional argument and the
`AtomType` as the second — the opposite of the declared field order
`(atom_type, acceptance_set, negated)`. -/
def notAcceptanceCondReduce (tok : String) (k : Nat) : Except PyErr RawAcceptanceAtom := do
  let t ← atomTypeOfString tok
  .ok ⟨.int k, .ty t, true⟩

/-- `AcceptanceAtom.__invert__` on a raw atom: toggles `negated`. -/
def rawAtomInvert (a : RawAcceptanceAtom) : RawAcceptanceAtom :=
  ⟨a.atom_type, a.acceptance_set, !a.negated⟩

/-- Python assignment `d[k] = v` on a dict represented as an insertion
ordered association list: overwrite in place if the key exists,
otherwise append. -/
def dictSet (d : List (String × LabelExpr)) (k : String) (v : LabelExpr) :
    List (String × LabelExpr) :=
  match d with
  | [] => [(k, v)]
  | (k0, v0) :: rest => if k0 = k then (k, v) :: rest else (k0, v0) :: dictSet rest k v

/-- Python equality between a `LabelAlias` object and an alias-table
key (an alias name string). The frozen-dataclass `__eq__` only compares
objects of the same class and returns NotImplemented otherwise, and
`str.__eq__` likewise, so `LabelAlias(...) == "..."` is always False. -/
def pyEqLabelAliasKey (_labelAlias : LabelExpr) (_key : String) : Bool := false

/-- `HOATransformer.alias` (`hoa/parsers.py`): build
`LabelAlias(alias_name, label_expression)`, run
`assert label_alias not in self._aliases` — a membership test of the
`LabelAlias` object among the dict KEYS, which are alias name strings —
and store the object under `alias_name`. Returns the updated alias
table together with the header-item value. -/
def aliasReduce (aliases : List (String × LabelExpr)) (aliasName : String)
    (labelExpression : LabelExpr) : Except PyErr (List (String × LabelExpr) × LabelExpr) :=
  let labelAlias := LabelExpr.lalias aliasName labelExpression
  if aliases.any (fun kv => pyEqLabelAliasKey labelAlias kv.fst) then .error .assertionError
  else .ok (dictSet aliases aliasName labelAlias, labelAlias)

/-- `HOATransformer.alias_label_expr`: a `@name` occurrence inside a
label expression resolves to the stored `LabelAlias` object; a name
missing from the table raises
`ValueError(f"Alias ... not defined in the header.")`. -/
def aliasLabelExprReduce (aliases : List (String × LabelExpr)) (name : String) :
    Except PyErr LabelExpr :=
  match aliases.lookup name with
  | some v => .ok v
  | none => .error .valueError

example : acceptanceReduce 1 (.atom (infAtom 0)) = .ok (.atom (infAtom 0)) := by decide
example : acceptanceReduce 2 (.atom (infAtom 0)) = .error .assertionError := by decide
example : acceptanceReduce 0 .tt = .error .valueError := by decide
example :
    aliasReduce [("@a", .lalias "@a" (.atom 0))] "@a" (.atom 1)
      = .ok ([("@a", .lalias "@a" (.atom 1))], .lalias "@a" (.atom 1)) := by decide

/-- `ACCEPTANCE_PARAMETER = Union[bool, int, identifier]` from
`hoa/types.py`. -/
inductive AccParam where
  | b (v : Bool)
  | i (n : Nat)
  | id (s : String)
deriving DecidableEq, Repr

/-- `HEADER_VALUES = Union[bool, int, string, identifier]` from
`hoa/types.py`. -/
inductive HeaderValue where
  | b (v : Bool)
  | i (n : Nat)
  | id (s : String)
  | s (v : String)
deriving DecidableEq, Repr

/-- Insert into an ascending list, keeping order. -/
def insertAsc (n : Nat) : List Nat → List Nat
  | [] => [n]
  | x :: xs => if n ≤ x then n :: x :: xs else x :: insertAsc n xs

/-- Ascending insertion sort. -/
def sortAsc (l : List Nat) : List Nat := l.foldr insertAsc []

/-- A Python `frozenset` of the small non-negative indices used in HOA
files, in its canonical form: the ascending duplicate-free list of its
elements. Equality of canonical forms coincides with Python set
equality, and iteration (CPython enumerates a frozenset of small
integers in ascending order) is the list itself. -/
def pyFrozenset (l : List Nat) : List Nat := sortAsc (dedupFirst l)

/-- `Acceptance` from `hoa/ast/acceptance.py`. -/
structure Acceptance where
  condition : AccCond
  name : Option String
  parameters : List AccParam
deriving DecidableEq

/-- `State` from `hoa/core.py`. -/
structure State where
  index : Nat
  label : Option LabelExpr
  name : Option String
  acc_sig : Option (List Nat)
deriving DecidableEq

/-- `Edge` from `hoa/core.py`. -/
structure Edge where
  state_conj : List Nat
  label : Option LabelExpr
  acc_sig : Option (List Nat)
deriving DecidableEq

/-- `HOAHeader` from `hoa/core.py`. `start_states` is a Python
`Set[FrozenSet[int]]` built by repeated `set.add`; it is modelled as an
insertion-ordered duplicate-free list of finsets (for the documents
verified concretely below it holds at most one element, for which the
set and the list agree). `aliases` is the ordered list of `LabelAlias`
objects. `headernames` is the insertion-ordered map of custom
headers. -/
structure HOAHeader where
  format_version : String
  acceptance : Acceptance
  nb_states : Option Nat
  start_states : Option (List (List Nat))
  propositions : Option (List String)
  aliases : Option (List LabelExpr)
  tool : Option String
  name : Option String
  properties : Option (List String)
  headernames : Option (List (String × List HeaderValue))
deriving DecidableEq

/-- `HOABody` from `hoa/core.py`: the insertion-ordered mapping from
each state to its outgoing edges (`OrderedDict`). -/
structure HOABody where
  state2edges : List (State × List Edge)
deriving DecidableEq

/-- `HOA` from `hoa/core.py`. -/
structure HOA where
  header : HOAHeader
  body : HOABody
deriving DecidableEq

/-- `prop[1:-1]`: Python slicing that removes the first and the last
character (used to strip the quotes of a proposition token). -/
def pySlice1m1 (s : String) : String := ⟨(s.data.drop 1).dropLast⟩

/-- The Python strip of the quote character: removes every leading and
trailing quote character. -/
def pyStripQuotes (s : String) : String :=
  ⟨((s.data.dropWhile (· = '"')).reverse.dropWhile (· = '"')).reverse⟩

/-- One argument of the `state_conj` production: an integer leaf or an
already-flattened sub-list (grammars may build conjunctions
incrementally). -/
inductive ConjArg where
  | i (n : Nat)
  | l (ns : List Nat)
deriving DecidableEq, Repr

/-- `HOATransformer.state_conj`: flatten the arguments into one integer
list (`reduce(operator.add, map(lambda x: [x] if not isinstance(x, list)
else x, args))`; `reduce` without initializer is plain concatenation on
the non-empty argument lists the grammar produces). -/
def stateConjReduce (args : List ConjArg) : List Nat :=
  args.flatMap (fun a => match a with | .i n => [n] | .l ns => ns)

/-- `HOATransformer.start_state`: `frozenset(*args[::2])` where the
single (even-position) argument is the flattened `state_conj` list, so
the result is the frozenset of those indices. -/
def startStateReduce (conj : List Nat) : List Nat := pyFrozenset conj

/-- `HOATransformer.propositions`: `assert_` that the declared count
equals the number of quoted names, `assert_` that the names are
pairwise distinct, then strip the quotes with `prop[1:-1]`. -/
def propositionsReduce (declaredCount : Nat) (quoted : List String) :
    Except PyErr (List String) :=
  if declaredCount ≠ quoted.length then .error .assertionError
  else if ¬ quoted.Nodup then .error .assertionError
  else .ok (quoted.map pySlice1m1)

/-- The pieces of a reduced `state_name` production of the grammar: the
mandatory state index, the optional quoted name token (the second
non-tree argument), the optional label sub-tree (its only child) and
the optional `acc_sig` sub-tree (its full children list). -/
structure StateNameArgs where
  index : Nat
  name : Option String
  label : Option LabelExpr
  accSigChildren : Option (List Nat)
deriving DecidableEq

/-- `HOATransformer.state_name`: the tree arguments are turned into
keyword arguments by `{arg.data: arg.children[0]}` — for the `acc_sig`
tree this reads only `children[0]`, the FIRST acceptance mark (an empty
brace group raises IndexError there), and then wraps that single mark
in a one-element frozenset. The quoted name token is stripped with
the Python strip of the quote character. -/
def stateNameReduce (a : StateNameArgs) : Except PyErr State :=
  match a.accSigChildren with
  | none => .ok ⟨a.index, a.label, a.name.map pyStripQuotes, none⟩
  | some [] => .error .indexError
  | some (m :: _) => .ok ⟨a.index, a.label, a.name.map pyStripQuotes, some [m]⟩

/-- The pieces of a reduced `edge` production: optional label sub-tree
(its only child), the successor conjunction, optional `acc_sig`
sub-tree (full children list). -/
structure EdgeArgs where
  label : Option LabelExpr
  stateConj : List Nat
  accSigChildren : Option (List Nat)
deriving DecidableEq

/-- `HOATransformer.edge`, dispatching on which optional parts are
present (the `len(args)` dispatch of the source): the acceptance
signature, when present, keeps ALL marks (`frozenset(...children)`). -/
def edgeReduce (a : EdgeArgs) : Edge :=
  match a.label, a.accSigChildren with
  | none, none => ⟨a.stateConj, none, none⟩
  | some l, none => ⟨a.stateConj, some l, none⟩
  | none, some cs => ⟨a.stateConj, none, some (pyFrozenset cs)⟩
  | some l, some cs => ⟨a.stateConj, some l, some (pyFrozenset cs)⟩

/-- Python `d[k] = v` on the body `OrderedDict`: overwrite in place if
the key exists, otherwise append. -/
def bodySet (d : List (State × List Edge)) (k : State) (v : List Edge) :
    List (State × List Edge) :=
  match d with
  | [] => [(k, v)]
  | (k0, v0) :: rest => if k0 = k then (k, v) :: rest else (k0, v0) :: bodySet rest k v

/-- `state2edges[s].append(e)`: append to the edge list of an existing
key; a missing key raises KeyError. -/
def bodyAppend (d : List (State × List Edge)) (s : State) (e : Edge) :
    Except PyErr (List (State × List Edge)) :=
  match d with
  | [] => .error .keyError
  | (k, es) :: rest =>
    if k = s then .ok ((k, es ++ [e]) :: rest)
    else do
      let r ← bodyAppend rest s e
      .ok ((k, es) :: r)

/-- The loop of `HOATransformer.body`: a `State` argument opens a new
current entry with an empty edge list, an `Edge` argument is appended
to the current entry (`state2edges[None]` raises KeyError when an edge
occurs before the first state). -/
def bodyReduceAux : List (State ⊕ Edge) → Option State → List (State × List Edge) →
    Except PyErr (List (State × List Edge))
  | [], _, acc => .ok acc
  | .inl st :: rest, _, acc => bodyReduceAux rest (some st) (bodySet acc st [])
  | .inr e :: rest, cur, acc =>
    match cur with
    | none => .error .keyError
    | some s => do
      let acc2 ← bodyAppend acc s e
      bodyReduceAux rest cur acc2

/-- `HOATransformer.body`. -/
def bodyReduce (args : List (State ⊕ Edge)) : Except PyErr HOABody := do
  let d ← bodyReduceAux args none []
  .ok ⟨d⟩

example :
    stateNameReduce ⟨0, none, none, some [0, 1]⟩
      = .ok ⟨0, none, none, some [0]⟩ := by decide
example :
    edgeReduce ⟨none, [0], some [0, 1]⟩ = ⟨[0], none, some [0, 1]⟩ := by decide

/-- Value of a non-empty decimal digit string (`int(s)` on the tokens
produced by the grammar, which are plain digit runs). -/
def natOfDigits (l : List Char) : Nat :=
  l.foldl (fun acc c => acc * 10 + (c.toNat - 48)) 0

/-- `acceptance_parameter.to_parameter_value` from `hoa/types.py`: the
token is matched "from the stricter to the looser" with `re.match`,
which anchors only at the START of the string. A token starting with
`t` or `f` therefore matches the boolean pattern `[tf]` and is
converted with `bool(s)` — true for every non-empty string; a token
starting with a digit matches the integer pattern and is converted
with `int(s)` (ValueError unless all characters are digits); otherwise
an identifier-shaped token is kept as an identifier and anything else
raises ValueError. -/
def toParameterValue (s : String) : Except PyErr AccParam :=
  if s.startsWith "t" ∨ s.startsWith "f" then .ok (.b (s ≠ ""))
  else if (s.data.headD ' ').isDigit then
    if s.data.all Char.isDigit then .ok (.i (natOfDigits s.data)) else .error .valueError
  else if (s.data.headD ' ').isAlpha ∨ s.startsWith "_" then .ok (.id s)
  else .error .valueError

/-- `hoa_header_value.to_header_value` from `hoa/types.py`: same
prefix-matching cascade as `toParameterValue` with a final fallback to
the `string` pattern (which accepts everything that remains). -/
def toHeaderValue (s : String) : Except PyErr HeaderValue :=
  if s.startsWith "t" ∨ s.startsWith "f" then .ok (.b (s ≠ ""))
  else if (s.data.headD ' ').isDigit then
    if s.data.all Char.isDigit then .ok (.i (natOfDigits s.data)) else .error .valueError
  else if (s.data.headD ' ').isAlpha ∨ s.startsWith "_" then .ok (.id s)
  else .ok (.s s)

/-- One reduced header item, tagged as in `HeaderItemType`
(`hoa/parsers.py`). `accName` carries the raw argument tokens of the
`acc-name:` line; `headerName` carries a custom header with its raw
value tokens. -/
inductive HeaderItem where
  | numStates (n : Nat)
  | startState (s : List Nat)
  | propositionsItem (ps : List String)
  | aliasItem (la : LabelExpr)
  | acceptanceItem (c : AccCond)
  | accName (args : List String)
  | toolItem (t : String)
  | nameItem (s : String)
  | propertiesItem (ps : List String)
  | headerName (k : String) (vs : List String)
deriving DecidableEq

/-- The accumulator of the `HOATransformer.header` loop
(`headertype2value` and `custom_headers`). -/
structure HeaderAcc where
  numStates : Option Nat
  startStates : Option (List (List Nat))
  props : Option (List String)
  aliases : Option (List LabelExpr)
  acc : Option AccCond
  accNameArgs : Option (List String)
  tool : Option String
  name : Option String
  properties : Option (List String)
  custom : List (String × List HeaderValue)
deriving DecidableEq

/-- The empty accumulator. -/
def HeaderAcc.init : HeaderAcc := ⟨none, none, none, none, none, none, none, none, none, []⟩

/-- `set.add` on an insertion-ordered duplicate-free list. -/
def pySetAdd [DecidableEq α] (l : List α) (x : α) : List α := if x ∈ l then l else l ++ [x]

/-- One step of the `HOATransformer.header` loop: `Alias:` and
`properties:` accumulate with `extend`, `Start:` accumulates with
`set.add`, custom headers go to `custom_headers` (duplicate custom
keys fail the `assert`), and every other item type asserts that it was
not seen before (`Header ... occurred more than once.`) and stores its
value. -/
def headerStep (acc : HeaderAcc) (item : HeaderItem) : Except PyErr HeaderAcc := do
  match item with
  | .aliasItem la => .ok { acc with aliases := some ((acc.aliases.getD []) ++ [la]) }
  | .propertiesItem ps => .ok { acc with properties := some ((acc.properties.getD []) ++ ps) }
  | .startState s => .ok { acc with startStates := some (pySetAdd (acc.startStates.getD []) s) }
  | .numStates n =>
    if acc.numStates.isSome then .error .assertionError else .ok { acc with numStates := some n }
  | .propositionsItem ps =>
    if acc.props.isSome then .error .assertionError else .ok { acc with props := some ps }
  | .acceptanceItem c =>
    if acc.acc.isSome then .error .assertionError else .ok { acc with acc := some c }
  | .accName args =>
    if acc.accNameArgs.isSome then .error .assertionError
    else .ok { acc with accNameArgs := some args }
  | .toolItem t =>
    if acc.tool.isSome then .error .assertionError else .ok { acc with tool := some t }
  | .nameItem s =>
    if acc.name.isSome then .error .assertionError else .ok { acc with name := some s }
  | .headerName k vs =>
    if (acc.custom.map Prod.fst).contains k then .error .assertionError
    else do
      let values ← vs.mapM toHeaderValue
      .ok { acc with custom := acc.custom ++ [(k, values)] }

/-- The loop of `HOATransformer.header` over the reduced header
items. -/
def headerFold (acc : HeaderAcc) : List HeaderItem → Except PyErr HeaderAcc
  | [] => .ok acc
  | item :: rest => do headerFold (← headerStep acc item) rest

/-- `HOATransformer.header` (after the loop): `Acceptance:` must be
present; when an `acc-name:` item exists, its first token is the
acceptance name (IndexError on an empty token list) and the remaining
tokens become the parameters via
`acceptance_parameter.to_parameter_value`; every `.get` of a missing
key yields `None`, and an empty custom-header dict is replaced by
`None`. -/
def headerAssemble (formatVersion : String) (items : List HeaderItem) :
    Except PyErr HOAHeader := do
  let acc ← headerFold HeaderAcc.init items
  match acc.acc with
  | none => .error .assertionError
  | some cond => do
    let acceptance : Acceptance ←
      match acc.accNameArgs with
      | none => pure ⟨cond, none, []⟩
      | some [] => .error .indexError
      | some (n :: params) => do
        let ps ← params.mapM toParameterValue
        pure ⟨cond, some n, ps⟩
    .ok
      ⟨formatVersion, acceptance, acc.numStates, acc.startStates, acc.props, acc.aliases,
        acc.tool, acc.name, acc.properties,
        if acc.custom.isEmpty then none else some acc.custom⟩

/-- `AtomType.value` (`"Fin"` / `"Inf"`). -/
def atomTypeValue : AtomType → String
  | .fin => "Fin"
  | .inf => "Inf"

mutual

/-- `acceptance_condition_to_string` from `hoa/printers.py`: an atom
renders as `Kind(set)` with a `!` before the set index when `negated`;
a `BinaryOp` renders as the parenthesized symbol-joined operand list in
stored order; literals render as `t` / `f`. -/
def accCondToString : AccCond → String
  | .atom a =>
    atomTypeValue a.atom_type ++ "(" ++ (if a.negated then "!" else "")
      ++ Nat.repr a.acceptance_set ++ ")"
  | .pand ops => "(" ++ String.intercalate " & " (accCondToStringL ops) ++ ")"
  | .por ops => "(" ++ String.intercalate " | " (accCondToStringL ops) ++ ")"
  | .tt => "t"
  | .ff => "f"

/-- `accCondToString` mapped over an operand sequence. -/
def accCondToStringL : AccList → List String
  | .nil => []
  | .cons x xs => accCondToString x :: accCondToStringL xs

end

mutual

/-- `label_expression_to_string` from `hoa/printers.py`: a `LabelAtom`
renders as its proposition index, a `LabelAlias` as its bare name, a
`BinaryOp` as the parenthesized symbol-joined operand list, a `UnaryOp`
as the parenthesized prefixed `!`, literals as `t` / `f`. -/
def labelExprToString : LabelExpr → String
  | .atom p => Nat.repr p
  | .lalias n _ => n
  | .land ops => "(" ++ String.intercalate " & " (labelExprToStringL ops) ++ ")"
  | .lor ops => "(" ++ String.intercalate " | " (labelExprToStringL ops) ++ ")"
  | .lnot a => "(!" ++ labelExprToString a ++ ")"
  | .tt => "t"
  | .ff => "f"

/-- `labelExprToString` mapped over an operand sequence. -/
def labelExprToStringL : LabelList → List String
  | .nil => []
  | .cons x xs => labelExprToString x :: labelExprToStringL xs

end

/-- `acceptance_parameter.to_acceptance_parameter`: booleans print as
`t`/`f`, integers as their decimal digits, identifiers as
themselves. -/
def accParamToString : AccParam → String
  | .b v => if v then "t" else "f"
  | .i n => Nat.repr n
  | .id s => s

/-- `hoa_header_value.to_hoa_header_value`. -/
def headerValueToString : HeaderValue → String
  | .b v => if v then "t" else "f"
  | .i n => Nat.repr n
  | .id s => s
  | .s v => v

/-- The name of a `LabelAlias` object (attribute access
`alias_label.alias`; the aliases list only ever holds `LabelAlias`
values). -/
def aliasNameOf : LabelExpr → String
  | .lalias n _ => n
  | _ => ""

/-- The resolved expression of a `LabelAlias` object (attribute access
`alias_label.expression`). -/
def aliasExprOf : LabelExpr → LabelExpr
  | .lalias _ e => e
  | x => x

/-- `dumps` on a `State` (`hoa/dumpers.py`): `State: `, bracketed label
if present, the index, the quoted name if present, the brace-grouped
acceptance signature if present; each of the first three parts carries
one trailing space. -/
def dumpsState (st : State) : String :=
  "State: "
    ++ (match st.label with
        | some l => "[" ++ labelExprToString l ++ "]" ++ " "
        | none => "")
    ++ Nat.repr st.index ++ " "
    ++ (match st.name with
        | some n => "\"" ++ n ++ "\"" ++ " "
        | none => "")
    ++ (match st.acc_sig with
        | some s => "\x7b" ++ String.intercalate " " (s.map Nat.repr) ++ "\x7d"
        | none => "")

/-- `dumps` on an `Edge`: bracketed label if present, the
`&`-joined successor conjunction, the brace-grouped acceptance
signature if present. -/
def dumpsEdge (e : Edge) : String :=
  (match e.label with
    | some l => "[" ++ labelExprToString l ++ "]" ++ " "
    | none => "")
    ++ String.intercalate "&" (e.state_conj.map Nat.repr) ++ " "
    ++ (match e.acc_sig with
        | some s => "\x7b" ++ String.intercalate " " (s.map Nat.repr) ++ "\x7d"
        | none => "")

/-- `dumps` on a `HOABody`: for each state, its line, a newline, and
the newline-joined edge lines; the state blocks are newline-joined and
one final newline is appended. -/
def dumpsBody (b : HOABody) : String :=
  String.intercalate "\n"
      (b.state2edges.map
        (fun kv => dumpsState kv.fst ++ "\n" ++ String.intercalate "\n" (kv.snd.map dumpsEdge)))
    ++ "\n"

/-- `dumps` on a `HOAHeader` (`hoa/dumpers.py`), field by field in the
fixed source order. The `Acceptance:` line re-computes the number of
accepting sets from the condition instead of reusing a declared count.
The `tool:` line evaluates `" ".join(tool)` on the stored tool STRING,
which joins its characters with spaces. -/
def dumpsHeader (h : HOAHeader) : String :=
  "HOA: " ++ h.format_version ++ "\n"
    ++ (match h.nb_states with
        | some n => "States: " ++ Nat.repr n ++ "\n"
        | none => "")
    ++ (match h.start_states with
        | some sets =>
          String.intercalate "\n"
              (sets.map
                (fun s => "Start: " ++ String.intercalate " & " (s.map Nat.repr)))
            ++ "\n"
        | none => "")
    ++ (match h.propositions with
        | some ps =>
          if ps.length > 0 then
            "AP: " ++ Nat.repr ps.length ++ " " ++ "\"" ++ String.intercalate "\" \"" ps ++ "\""
              ++ "\n"
          else ""
        | none => "")
    ++ (match h.aliases with
        | some als =>
          if als.length > 0 then
            String.intercalate "\n"
                (als.map
                  (fun la =>
                    "Alias: " ++ aliasNameOf la ++ " " ++ labelExprToString (aliasExprOf la)))
              ++ "\n"
          else ""
        | none => "")
    ++ "Acceptance: " ++ Nat.repr (nbAcceptingSets h.acceptance.condition) ++ " "
    ++ accCondToString h.acceptance.condition ++ "\n"
    ++ (match h.acceptance.name with
        | some n =>
          "acc-name: " ++ n ++ " "
            ++ String.intercalate " " (h.acceptance.parameters.map accParamToString) ++ "\n"
        | none => "")
    ++ (match h.tool with
        | some t => "tool: " ++ String.intercalate " " (t.data.map Char.toString) ++ "\n"
        | none => "")
    ++ (match h.name with
        | some n => "name: " ++ "\"" ++ n ++ "\"" ++ "\n"
        | none => "")
    ++ (match h.properties with
        | some ps =>
          if ps.length > 0 then "properties: " ++ String.intercalate " " ps ++ "\n" else ""
        | none => "")
    ++ (match h.headernames with
        | some hs =>
          if hs.length > 0 then
            String.intercalate "\n"
                (hs.map
                  (fun kv =>
                    kv.fst ++ ": "
                      ++ String.intercalate " " (kv.snd.map headerValueToString)))
              ++ "\n"
          else ""
        | none => "")

/-- `dumps` on a `HOA` document. -/
def dumpsHOA (hoa : HOA) : String :=
  dumpsHeader hoa.header ++ "--BODY--\n" ++ dumpsBody hoa.body ++ "--END--"

/-- The automaton denoted by the concrete round-trip document of the
specification. -/
def aut1 : HOA :=
  ⟨⟨"v1", ⟨.atom (infAtom 0), none, []⟩, some 1, some [[0]], some ["a"], none, none, none, none,
      none⟩,
    ⟨[(⟨0, none, none, none⟩, [⟨[0], some (.atom 0), some [0]⟩])]⟩⟩

example :
    dumpsHOA aut1
      = "HOA: v1\nStates: 1\nStart: 0\nAP: 1 \"a\"\nAcceptance: 1 Inf(0)\n--BODY--\nState: 0 \n[0] 0 \x7b0\x7d\n--END--" := by
  decide

/-!
The text-level grammar layer. The repository parses raw text with an
external grammar file (`grammars/hoa.lark`) that is not part of the
source tree here; only the bottom-up reductions of `HOATransformer`
are. The tokenization and recursive-descent functions below are
therefore modelled from the specification of the HOA textual grammar
(header lines of the form `NAME: ...`, a `--BODY--` separator, body
lines, `--END--`; label expressions over `!`, `&`, `|`, parentheses,
proposition indices, `t`/`f` and `@`-aliases; acceptance conditions
over `Fin`/`Inf` atoms, `&`, `|`, parentheses and `t`/`f`), and they
drive exactly the `HOATransformer` reductions defined above. Negated
acceptance atoms `Fin(!k)` / `Inf(!k)` are outside the modelled
fragment (none of the concretely parsed documents contains one): the
reduction the source applies to them builds the ill-typed
`RawAcceptanceAtom` analysed separately.
-/

/-- Tokens of the modelled HOA grammar fragment. Quoted strings keep
their surrounding quotes (the reductions strip them). -/
inductive Tok where
  | int (n : Nat)
  | ident (s : String)
  | str (s : String)
  | aname (s : String)
  | lparen
  | rparen
  | amp
  | bar
  | bang
  | lbrack
  | rbrack
  | lbrace
  | rbrace
deriving DecidableEq, Repr

/-- Characters allowed after the first one in an identifier
(`[0-9a-zA-Z_-]`). -/
def isIdentChar (c : Char) : Bool := c.isAlphanum ∨ c = '_' ∨ c = '-'

/-- Modelled from the spec: whitespace-separated tokenization of one
line of HOA text. -/
def tokenize : Nat → List Char → Except PyErr (List Tok)
  | 0, _ => .error .valueError
  | _ + 1, [] => .ok []
  | fuel + 1, c :: cs =>
    if c = ' ' then tokenize fuel cs
    else if c = '(' then (Tok.lparen :: ·) <$> tokenize fuel cs
    else if c = ')' then (Tok.rparen :: ·) <$> tokenize fuel cs
    else if c = '&' then (Tok.amp :: ·) <$> tokenize fuel cs
    else if c = '|' then (Tok.bar :: ·) <$> tokenize fuel cs
    else if c = '!' then (Tok.bang :: ·) <$> tokenize fuel cs
    else if c = '[' then (Tok.lbrack :: ·) <$> tokenize fuel cs
    else if c = ']' then (Tok.rbrack :: ·) <$> tokenize fuel cs
    else if c = '\x7b' then (Tok.lbrace :: ·) <$> tokenize fuel cs
    else if c = '\x7d' then (Tok.rbrace :: ·) <$> tokenize fuel cs
    else if c = '"' then
      let body := cs.takeWhile (· ≠ '"')
      match cs.drop body.length with
      | '"' :: rest => (Tok.str ("\"" ++ (⟨body⟩ : String) ++ "\"") :: ·) <$> tokenize fuel rest
      | _ => .error .valueError
    else if c.isDigit then
      let ds := (c :: cs).takeWhile Char.isDigit
      (Tok.int (natOfDigits ds) :: ·) <$> tokenize fuel (cs.drop (ds.length - 1))
    else if c = '@' then
      let body := cs.takeWhile isIdentChar
      (Tok.aname ("@" ++ (⟨body⟩ : String)) :: ·) <$> tokenize fuel (cs.drop body.length)
    else if c.isAlpha ∨ c = '_' then
      let body := cs.takeWhile isIdentChar
      (Tok.ident (⟨c :: body⟩ : String) :: ·) <$> tokenize fuel (cs.drop body.length)
    else .error .valueError

/-- The raw text of a token (used for `acc-name:`, `tool:` and custom
header values, which the transformer receives as plain token
strings). -/
def tokRaw : Tok → Except PyErr String
  | .int n => .ok (Nat.repr n)
  | .ident s => .ok s
  | .str s => .ok s
  | .aname s => .ok s
  | _ => .error .valueError

mutual

/-- Modelled from the spec: a disjunction of label conjunctions; the
parse-tree children are reduced by `HOATransformer.or_label_expr` =
`reduce(operator.or_, args)`, a left fold of `|` that is the identity
on a single child. -/
def parseLOr : Nat → List (String × LabelExpr) → List Tok →
    Except PyErr (LabelExpr × List Tok)
  | 0, _, _ => .error .valueError
  | fuel + 1, al, toks => do
    let (first, rest) ← parseLAnd fuel al toks
    parseLOrRest fuel al first rest

/-- Remaining `| conjunction` parts of a label disjunction. -/
def parseLOrRest : Nat → List (String × LabelExpr) → LabelExpr → List Tok →
    Except PyErr (LabelExpr × List Tok)
  | 0, _, _, _ => .error .valueError
  | fuel + 1, al, acc, .bar :: toks => do
    let (nxt, rest) ← parseLAnd fuel al toks
    let acc2 ← pyLOr acc nxt
    parseLOrRest fuel al acc2 rest
  | _ + 1, _, acc, toks => .ok (acc, toks)

/-- Modelled from the spec: a conjunction of unary label expressions;
reduced by `HOATransformer.and_label_expr` = `reduce(operator.and_,
args)`. -/
def parseLAnd : Nat → List (String × LabelExpr) → List Tok →
    Except PyErr (LabelExpr × List Tok)
  | 0, _, _ => .error .valueError
  | fuel + 1, al, toks => do
    let (first, rest) ← parseLUnary fuel al toks
    parseLAndRest fuel al first rest

/-- Remaining `& unary` parts of a label conjunction. -/
def parseLAndRest : Nat → List (String × LabelExpr) → LabelExpr → List Tok →
    Except PyErr (LabelExpr × List Tok)
  | 0, _, _, _ => .error .valueError
  | fuel + 1, al, acc, .amp :: toks => do
    let (nxt, rest) ← parseLUnary fuel al toks
    let acc2 ← pyLAnd acc nxt
    parseLAndRest fuel al acc2 rest
  | _ + 1, _, acc, toks => .ok (acc, toks)

/-- Modelled from the spec: a unary label expression — `!` negation
(reduced by `HOATransformer.not_label_expr` = `~args[0]`), a
parenthesized disjunction, a proposition index
(`HOATransformer.atom_label_expr` = `LabelAtom(args[0])`), the boolean
leaves `t` / `f` (`HOATransformer.boolean_label_expr`), or an alias
reference (`HOATransformer.alias_label_expr`). -/
def parseLUnary : Nat → List (String × LabelExpr) → List Tok →
    Except PyErr (LabelExpr × List Tok)
  | 0, _, _ => .error .valueError
  | fuel + 1, al, .bang :: toks => do
    let (e, rest) ← parseLUnary fuel al toks
    let ne ← labelInvert e
    .ok (ne, rest)
  | fuel + 1, al, .lparen :: toks => do
    let (e, rest) ← parseLOr fuel al toks
    match rest with
    | .rparen :: rest2 => .ok (e, rest2)
    | _ => .error .valueError
  | _ + 1, _, .int n :: toks => .ok (.atom n, toks)
  | _ + 1, _, .ident "t" :: toks => .ok (.tt, toks)
  | _ + 1, _, .ident "f" :: toks => .ok (.ff, toks)
  | _ + 1, al, .aname s :: toks => do
    let e ← aliasLabelExprReduce al s
    .ok (e, toks)
  | _ + 1, _, _ => .error .valueError

end

mutual

/-- Modelled from the spec: a disjunction of acceptance conjunctions;
reduced by `HOATransformer.or_acceptance_cond` =
`reduce(operator.or_, args)`. -/
def parseAOr : Nat → List Tok → Except PyErr (AccCond × List Tok)
  | 0, _ => .error .valueError
  | fuel + 1, toks => do
    let (first, rest) ← parseAAnd fuel toks
    parseAOrRest fuel first rest

/-- Remaining `| conjunction` parts of an acceptance disjunction. -/
def parseAOrRest : Nat → AccCond → List Tok → Except PyErr (AccCond × List Tok)
  | 0, _, _ => .error .valueError
  | fuel + 1, acc, .bar :: toks => do
    let (nxt, rest) ← parseAAnd fuel toks
    let acc2 ← pyPOr acc nxt
    parseAOrRest fuel acc2 rest
  | _ + 1, acc, toks => .ok (acc, toks)

/-- Modelled from the spec: a conjunction of acceptance atoms; reduced
by `HOATransformer.and_acceptance_cond`. -/
def parseAAnd : Nat → List Tok → Except PyErr (AccCond × List Tok)
  | 0, _ => .error .valueError
  | fuel + 1, toks => do
    let (first, rest) ← parseAAtom fuel toks
    parseAAndRest fuel first rest

/-- Remaining `& atom` parts of an acceptance conjunction. -/
def parseAAndRest : Nat → AccCond → List Tok → Except PyErr (AccCond × List Tok)
  | 0, _, _ => .error .valueError
  | fuel + 1, acc, .amp :: toks => do
    let (nxt, rest) ← parseAAtom fuel toks
    let acc2 ← pyPAnd acc nxt
    parseAAndRest fuel acc2 rest
  | _ + 1, acc, toks => .ok (acc, toks)

/-- Modelled from the spec: an acceptance atom `Fin(k)` / `Inf(k)`
(reduced by `HOATransformer.atom_acceptance_cond` =
`AcceptanceAtom(AtomType(args[0]), args[1], False)`), a parenthesized
disjunction, or a boolean leaf
(`HOATransformer.boolean_acceptance_cond`). A negated payload `(!k)`
is outside the modelled fragment (see the module comment). -/
def parseAAtom : Nat → List Tok → Except PyErr (AccCond × List Tok)
  | 0, _ => .error .valueError
  | fuel + 1, .lparen :: toks => do
    let (e, rest) ← parseAOr fuel toks
    match rest with
    | .rparen :: rest2 => .ok (e, rest2)
    | _ => .error .valueError
  | _ + 1, .ident "t" :: toks => .ok (.tt, toks)
  | _ + 1, .ident "f" :: toks => .ok (.ff, toks)
  | _ + 1, .ident k :: .lparen :: .int n :: .rparen :: toks => do
    let t ← atomTypeOfString k
    .ok (.atom ⟨t, n, false⟩, toks)
  | _ + 1, _ => .error .valueError

end

/-- Split a character stream at newlines. -/
def splitNL : List Char → List (List Char)
  | [] => [[]]
  | '\n' :: rest => [] :: splitNL rest
  | c :: rest =>
    match splitNL rest with
    | [] => [[c]]
    | l :: ls => (c :: l) :: ls

/-- Split a header line at its first colon into the header name and
the remaining characters. -/
def splitColon (l : List Char) : Except PyErr (String × List Char) :=
  let name := l.takeWhile (· ≠ ':')
  match l.drop name.length with
  | ':' :: rest => .ok (⟨name⟩, rest)
  | _ => .error .valueError

/-- Leading `INT ("&" INT)*` of a token stream: the textual form of a
`state_conj`. -/
def parseConjRest : Nat → List Nat → List Tok → Except PyErr (List Nat × List Tok)
  | 0, _, _ => .error .valueError
  | fuel + 1, acc, .amp :: .int n :: toks => parseConjRest fuel (acc ++ [n]) toks
  | _ + 1, acc, toks => .ok (acc, toks)

/-- Entry point of `parseConjRest`. -/
def parseConj : List Tok → Except PyErr (List Nat × List Tok)
  | .int n :: toks => parseConjRest (toks.length + 1) [n] toks
  | _ => .error .valueError

/-- Leading run of integer tokens (the members of a brace-grouped
acceptance signature). -/
def collectInts : List Tok → List Nat × List Tok
  | .int n :: rest =>
    let (ns, r) := collectInts rest
    (n :: ns, r)
  | toks => ([], toks)

/-- Modelled from the spec: reduce one header line (after the `HOA:`
line) to its `HeaderItem`, threading the alias table exactly as the
transformer does: `Alias:` lines run `aliasReduce` and later label
expressions see the updated table; `Acceptance:` lines run
`acceptanceReduce`; `AP:` lines run `propositionsReduce`; any
unrecognized header name becomes a custom header item. -/
def headerLineReduce (al : List (String × LabelExpr)) (line : List Char) :
    Except PyErr (List (String × LabelExpr) × HeaderItem) := do
  let (name, restChars) ← splitColon line
  let toks ← tokenize (restChars.length + 1) restChars
  if name = "States" then
    match toks with
    | [.int n] => .ok (al, .numStates n)
    | _ => .error .valueError
  else if name = "Start" then do
    let (conj, rest) ← parseConj toks
    if rest = [] then
      .ok (al, .startState (startStateReduce (stateConjReduce (conj.map ConjArg.i))))
    else .error .valueError
  else if name = "AP" then
    match toks with
    | .int n :: rest => do
      let quoted ← rest.mapM (fun t => match t with | .str s => .ok s | _ => .error .valueError)
      let ps ← propositionsReduce n quoted
      .ok (al, .propositionsItem ps)
    | _ => .error .valueError
  else if name = "Alias" then
    match toks with
    | .aname s :: rest => do
      let (e, remaining) ← parseLOr (4 * rest.length + 8) al rest
      if remaining = [] then do
        let (al2, item) ← aliasReduce al s e
        .ok (al2, .aliasItem item)
      else .error .valueError
    | _ => .error .valueError
  else if name = "Acceptance" then
    match toks with
    | .int n :: rest => do
      let (cond, remaining) ← parseAOr (4 * rest.length + 8) rest
      if remaining = [] then do
        let cond2 ← acceptanceReduce n cond
        .ok (al, .acceptanceItem cond2)
      else .error .valueError
    | _ => .error .valueError
  else if name = "acc-name" then do
    let raw ← toks.mapM tokRaw
    .ok (al, .accName raw)
  else if name = "tool" then
    match toks with
    | t :: _ => do
      let s ← tokRaw t
      .ok (al, .toolItem s)
    | [] => .error .valueError
  else if name = "name" then
    match toks with
    | .str s :: _ => .ok (al, .nameItem (pyStripQuotes s))
    | _ => .error .valueError
  else if name = "properties" then do
    let raw ← toks.mapM (fun t => match t with | .ident s => .ok s | _ => .error .valueError)
    .ok (al, .propertiesItem raw)
  else if name = "HOA" then .error .valueError
  else do
    let raw ← toks.mapM tokRaw
    .ok (al, .headerName name raw)

/-- Fold `headerLineReduce` over the header lines, skipping blank
lines, accumulating the header items in file order and threading the
alias table. -/
def processHeaderLines : List (List Char) → List (String × LabelExpr) → List HeaderItem →
    Except PyErr (List (String × LabelExpr) × List HeaderItem)
  | [], al, items => .ok (al, items)
  | line :: rest, al, items =>
    if line.all (· = ' ') then processHeaderLines rest al items
    else do
      let (al2, item) ← headerLineReduce al line
      processHeaderLines rest al2 (items ++ [item])

/-- Modelled from the spec: the pieces of a `State:` line after the
keyword — optional bracketed label, index, optional quoted name,
optional brace-grouped signature — assembled into the transformer
arguments and reduced with `stateNameReduce`. -/
def parseStateLine (al : List (String × LabelExpr)) (toks : List Tok) : Except PyErr State := do
  let (lab, toks1) ←
    match toks with
    | .lbrack :: rest => do
      let (e, r) ← parseLOr (4 * rest.length + 8) al rest
      match r with
      | .rbrack :: r2 => pure (some e, r2)
      | _ => .error .valueError
    | _ => pure ((none : Option LabelExpr), toks)
  match toks1 with
  | .int idx :: toks2 => do
    let (nameTok, toks3) :=
      match toks2 with
      | .str s :: r => (some s, r)
      | _ => ((none : Option String), toks2)
    let (accSig, toks4) ←
      match toks3 with
      | .lbrace :: r =>
        match collectInts r with
        | (ns, .rbrace :: r3) => pure (some ns, r3)
        | _ => .error .valueError
      | _ => pure ((none : Option (List Nat)), toks3)
    if toks4 = [] then stateNameReduce ⟨idx, nameTok, lab, accSig⟩ else .error .valueError
  | _ => .error .valueError

/-- Modelled from the spec: an edge line — optional bracketed label,
successor conjunction, optional brace-grouped signature — reduced with
`edgeReduce`. -/
def parseEdgeLine (al : List (String × LabelExpr)) (toks : List Tok) : Except PyErr Edge := do
  let (lab, toks1) ←
    match toks with
    | .lbrack :: rest => do
      let (e, r) ← parseLOr (4 * rest.length + 8) al rest
      match r with
      | .rbrack :: r2 => pure (some e, r2)
      | _ => .error .valueError
    | _ => pure ((none : Option LabelExpr), toks)
  let (conj, toks2) ← parseConj toks1
  let (accSig, toks3) ←
    match toks2 with
    | .lbrace :: r =>
      match collectInts r with
      | (ns, .rbrace :: r3) => pure (some ns, r3)
      | _ => .error .valueError
    | _ => pure ((none : Option (List Nat)), toks2)
  if toks3 = [] then .ok (edgeReduce ⟨lab, stateConjReduce (conj.map ConjArg.i), accSig⟩)
  else .error .valueError

/-- Fold over the body lines, skipping blank lines, producing the
`State`/`Edge` argument sequence of `HOATransformer.body` in file
order. -/
def processBodyLines (al : List (String × LabelExpr)) :
    List (List Char) → List (State ⊕ Edge) → Except PyErr (List (State ⊕ Edge))
  | [], acc => .ok acc
  | line :: rest, acc =>
    if line.all (· = ' ') then processBodyLines al rest acc
    else if line.take 6 = "State:".data then do
      let toks ← tokenize (line.length + 1) (line.drop 6)
      let st ← parseStateLine al toks
      processBodyLines al rest (acc ++ [.inl st])
    else do
      let toks ← tokenize (line.length + 1) line
      let e ← parseEdgeLine al toks
      processBodyLines al rest (acc ++ [.inr e])

/-- Modelled from the spec: `HOAParser.__call__` — split the document
into the header part (before `--BODY--`) and the body part (before
`--END--`), require the leading `HOA: version` line, reduce the header
lines (threading the alias table), assemble the header with
`headerAssemble`, reduce the body lines, and build the `HOA` value. -/
def parseHOA (text : String) : Except PyErr HOA := do
  let lines := splitNL text.data
  let headerLines := lines.takeWhile (fun l => l ≠ "--BODY--".data)
  if headerLines.length = lines.length then .error .valueError
  else do
    let rest := lines.drop (headerLines.length + 1)
    let bodyLines := rest.takeWhile (fun l => l ≠ "--END--".data)
    if bodyLines.length = rest.length then .error .valueError
    else
      match headerLines with
      | [] => .error .valueError
      | first :: hrest => do
        let (hname, fv) ← splitColon first
        if hname = "HOA" then do
          let ftoks ← tokenize (fv.length + 1) fv
          match ftoks with
          | [.ident v] => do
            let (al, items) ← processHeaderLines hrest [] []
            let header ← headerAssemble v items
            let args ← processBodyLines al bodyLines []
            let body ← bodyReduce args
            .ok ⟨header, body⟩
          | _ => .error .valueError
        else .error .valueError

/-- The concrete round-trip document of the specification. -/
def concreteDoc : String :=
  "HOA: v1\nStates: 1\nStart: 0\nAP: 1 \"a\"\nAcceptance: 1 Inf(0)\n--BODY--\nState: 0\n[0] 0 \x7b0\x7d\n--END--"

example : parseHOA concreteDoc = .ok aut1 := by decide
example : parseHOA (dumpsHOA aut1) = .ok aut1 := by decide

/-- Is the formula a `_And` node? -/
def isLAnd : LabelExpr → Bool
  | .land _ => true
  | _ => false

/-- Is the formula a `_Or` node? -/
def isLOr : LabelExpr → Bool
  | .lor _ => true
  | _ => false

mutual

/-- The shape invariants that actually hold of smart-constructed label
formulas: every `_And`/`_Or` node has at least two operands, none of
which is a node of the same operator or the absorbing element of the
operator, and the operands recursively satisfy the same property. -/
def goodShape : LabelExpr → Bool
  | .land ops => decide (2 ≤ ops.toList.length) && goodAndOps ops
  | .lor ops => decide (2 ≤ ops.toList.length) && goodOrOps ops
  | .lnot a => goodShape a
  | .lalias _ e => goodShape e
  | _ => true

/-- Operand conditions of a `_And` node. -/
def goodAndOps : LabelList → Bool
  | .nil => true
  | .cons x xs => !(isLAnd x) && !(x == LabelExpr.ff) && goodShape x && goodAndOps xs

/-- Operand conditions of a `_Or` node. -/
def goodOrOps : LabelList → Bool
  | .nil => true
  | .cons x xs => !(isLOr x) && !(x == LabelExpr.tt) && goodShape x && goodOrOps xs

end

/-- The label formulas obtainable by composing the smart constructors,
starting from atoms, aliases and the literals: closure of the atom
classes under successful applications of `_And`, `_Or` and `~`. -/
inductive Built : LabelExpr → Prop
  | atom (n : Nat) : Built (.atom n)
  | true_lit : Built .tt
  | false_lit : Built .ff
  | alias_of (n : String) (e : LabelExpr) : Built e → Built (.lalias n e)
  | not_of (x r : LabelExpr) : Built x → labelInvert x = .ok r → Built r
  | and_of (ops : List LabelExpr) (r : LabelExpr) :
      (∀ x ∈ ops, Built x) → mkLAnd ops = .ok r → Built r
  | or_of (ops : List LabelExpr) (r : LabelExpr) :
      (∀ x ∈ ops, Built x) → mkLOr ops = .ok r → Built r

theorem dedupFirstAux_subset [DecidableEq α] :
    ∀ (l seen : List α) (x : α), x ∈ dedupFirstAux l seen → x ∈ l := by
  intro l
  induction l with
  | nil => intro seen x hx; simp [dedupFirstAux] at hx
  | cons y ys ih =>
    intro seen x hx
    simp only [dedupFirstAux] at hx
    by_cases hy : y ∈ seen
    · simp [hy] at hx
      exact List.mem_cons_of_mem _ (ih _ _ hx)
    · simp [hy] at hx
      rcases hx with h | h
      · simp [h]
      · exact List.mem_cons_of_mem _ (ih _ _ h)

theorem dedupFirst_subset [DecidableEq α] (l : List α) (x : α) :
    x ∈ dedupFirst l → x ∈ l := dedupFirstAux_subset l [] x

theorem flattenLAndE_of_not_land (x : LabelExpr) (h : isLAnd x = false) :
    flattenLAndE x = [x] := by
  cases x <;> simp_all [isLAnd, flattenLAndE]

theorem flattenLAnd_of_flat (l : List LabelExpr) (h : ∀ x ∈ l, isLAnd x = false) :
    flattenLAnd l = l := by
  induction l with
  | nil => rfl
  | cons x xs ih =>
    simp only [flattenLAnd]
    rw [flattenLAndE_of_not_land x (h x (by simp)), ih (fun y hy => h y (by simp [hy]))]
    rfl

theorem flattenLOrE_of_not_lor (x : LabelExpr) (h : isLOr x = false) :
    flattenLOrE x = [x] := by
  cases x <;> simp_all [isLOr, flattenLOrE]

theorem flattenLOr_of_flat (l : List LabelExpr) (h : ∀ x ∈ l, isLOr x = false) :
    flattenLOr l = l := by
  induction l with
  | nil => rfl
  | cons x xs ih =>
    simp only [flattenLOr]
    rw [flattenLOrE_of_not_lor x (h x (by simp)), ih (fun y hy => h y (by simp [hy]))]
    rfl


theorem goodAndOps_iff : (ops : LabelList) →
    (goodAndOps ops = true
      ↔ ∀ x ∈ ops.toList, isLAnd x = false ∧ x ≠ LabelExpr.ff ∧ goodShape x = true)
  | .nil => by simp [goodAndOps, LabelList.toList]
  | .cons x xs => by
    simp only [goodAndOps, LabelList.toList, Bool.and_eq_true, Bool.not_eq_true',
      beq_eq_false_iff_ne, List.mem_cons, goodAndOps_iff xs]
    constructor
    · rintro ⟨⟨⟨h1, h2⟩, h3⟩, h4⟩ y hy
      rcases hy with rfl | hy
      · exact ⟨h1, h2, h3⟩
      · exact h4 y hy
    · intro h
      exact ⟨⟨⟨(h x (Or.inl rfl)).1, (h x (Or.inl rfl)).2.1⟩, (h x (Or.inl rfl)).2.2⟩,
        fun y hy => h y (Or.inr hy)⟩

theorem goodOrOps_iff : (ops : LabelList) →
    (goodOrOps ops = true
      ↔ ∀ x ∈ ops.toList, isLOr x = false ∧ x ≠ LabelExpr.tt ∧ goodShape x = true)
  | .nil => by simp [goodOrOps, LabelList.toList]
  | .cons x xs => by
    simp only [goodOrOps, LabelList.toList, Bool.and_eq_true, Bool.not_eq_true',
      beq_eq_false_iff_ne, List.mem_cons, goodOrOps_iff xs]
    constructor
    · rintro ⟨⟨⟨h1, h2⟩, h3⟩, h4⟩ y hy
      rcases hy with rfl | hy
      · exact ⟨h1, h2, h3⟩
      · exact h4 y hy
    · intro h
      exact ⟨⟨⟨(h x (Or.inl rfl)).1, (h x (Or.inl rfl)).2.1⟩, (h x (Or.inl rfl)).2.2⟩,
        fun y hy => h y (Or.inr hy)⟩

theorem flattenLAndE_good (x : LabelExpr) (hg : goodShape x = true) (hf : x ≠ .ff) :
    (∀ y ∈ flattenLAndE x, goodShape y = true ∧ isLAnd y = false ∧ y ≠ .ff)
      ∧ 1 ≤ (flattenLAndE x).length := by
  by_cases hx : isLAnd x = true
  · cases x with
    | land ops =>
      simp only [flattenLAndE, flattenLAndL_eq_toList]
      simp only [goodShape, Bool.and_eq_true, decide_eq_true_eq] at hg
      have hflat := (goodAndOps_iff ops).mp hg.2
      rw [flattenLAnd_of_flat ops.toList (fun y hy => (hflat y hy).1)]
      constructor
      · intro y hy
        exact ⟨(hflat y hy).2.2, (hflat y hy).1, (hflat y hy).2.1⟩
      · omega
    | lor ops => simp [isLAnd] at hx
    | lnot a => simp [isLAnd] at hx
    | atom p => simp [isLAnd] at hx
    | lalias n e => simp [isLAnd] at hx
    | tt => simp [isLAnd] at hx
    | ff => simp [isLAnd] at hx
  · rw [Bool.not_eq_true] at hx
    rw [flattenLAndE_of_not_land x hx]
    exact ⟨fun y hy => by simp at hy; subst hy; exact ⟨hg, hx, hf⟩, by simp⟩

theorem flattenLAnd_good (l : List LabelExpr)
    (h : ∀ x ∈ l, goodShape x = true ∧ x ≠ .ff) :
    (∀ y ∈ flattenLAnd l, goodShape y = true ∧ isLAnd y = false ∧ y ≠ .ff)
      ∧ l.length ≤ (flattenLAnd l).length := by
  induction l with
  | nil => simp [flattenLAnd]
  | cons x xs ih =>
    have hx := h x (by simp)
    have hE := flattenLAndE_good x hx.1 hx.2
    have ihs := ih (fun y hy => h y (by simp [hy]))
    simp only [flattenLAnd]
    constructor
    · intro y hy
      rcases List.mem_append.mp hy with hy | hy
      · exact hE.1 y hy
      · exact ihs.1 y hy
    · simp only [List.length_append, List.length_cons]
      omega

theorem flattenLOrL_eq_toList : (ops : LabelList) → flattenLOrL ops = flattenLOr ops.toList
  | .nil => rfl
  | .cons x xs => by
      simp [flattenLOrL, LabelList.toList, flattenLOr, flattenLOrL_eq_toList xs]

theorem flattenLOrE_good (x : LabelExpr) (hg : goodShape x = true) (hf : x ≠ .tt) :
    (∀ y ∈ flattenLOrE x, goodShape y = true ∧ isLOr y = false ∧ y ≠ .tt)
      ∧ 1 ≤ (flattenLOrE x).length := by
  by_cases hx : isLOr x = true
  · cases x with
    | lor ops =>
      simp only [flattenLOrE, flattenLOrL_eq_toList]
      simp only [goodShape, Bool.and_eq_true, decide_eq_true_eq] at hg
      have hflat := (goodOrOps_iff ops).mp hg.2
      rw [flattenLOr_of_flat ops.toList (fun y hy => (hflat y hy).1)]
      constructor
      · intro y hy
        exact ⟨(hflat y hy).2.2, (hflat y hy).1, (hflat y hy).2.1⟩
      · omega
    | land ops => simp [isLOr] at hx
    | lnot a => simp [isLOr] at hx
    | atom p => simp [isLOr] at hx
    | lalias n e => simp [isLOr] at hx
    | tt => simp [isLOr] at hx
    | ff => simp [isLOr] at hx
  · rw [Bool.not_eq_true] at hx
    rw [flattenLOrE_of_not_lor x hx]
    exact ⟨fun y hy => by simp at hy; subst hy; exact ⟨hg, hx, hf⟩, by simp⟩

theorem flattenLOr_good (l : List LabelExpr)
    (h : ∀ x ∈ l, goodShape x = true ∧ x ≠ .tt) :
    (∀ y ∈ flattenLOr l, goodShape y = true ∧ isLOr y = false ∧ y ≠ .tt)
      ∧ l.length ≤ (flattenLOr l).length := by
  induction l with
  | nil => simp [flattenLOr]
  | cons x xs ih =>
    have hx := h x (by simp)
    have hE := flattenLOrE_good x hx.1 hx.2
    have ihs := ih (fun y hy => h y (by simp [hy]))
    simp only [flattenLOr]
    constructor
    · intro y hy
      rcases List.mem_append.mp hy with hy | hy
      · exact hE.1 y hy
      · exact ihs.1 y hy
    · simp only [List.length_append, List.length_cons]
      omega

theorem mkLAnd_good (args : List LabelExpr) (r : LabelExpr)
    (h : ∀ x ∈ args, goodShape x = true) (he : mkLAnd args = .ok r) :
    goodShape r = true := by
  have hops : ∀ x ∈ dedupFirst args, goodShape x = true :=
    fun x hx => h x (dedupFirst_subset _ _ hx)
  cases hl : dedupFirst args with
  | nil => simp [mkLAnd, simplifyLAnd, hl, labelInvert, Except.map] at he
  | cons x xs =>
    cases xs with
    | nil =>
      simp only [mkLAnd, simplifyLAnd, hl, List.length_cons, List.length_nil] at he
      simp at he
      subst he
      exact hops x (by rw [hl]; simp)
    | cons y ys =>
      by_cases hff : LabelExpr.ff ∈ (x :: y :: ys : List LabelExpr)
      · simp [mkLAnd, simplifyLAnd, hl, hff] at he
      · have hgood : ∀ z ∈ (x :: y :: ys : List LabelExpr), goodShape z = true ∧ z ≠ .ff := by
          intro z hz
          refine ⟨hops z (by rw [hl]; exact hz), ?_⟩
          rintro rfl
          exact hff hz
        have hfl := flattenLAnd_good _ hgood
        cases hflat : flattenLAnd (x :: y :: ys : List LabelExpr) with
        | nil => rw [hflat] at hfl; simp at hfl
        | cons z zs =>
          cases zs with
          | nil => rw [hflat] at hfl; simp at hfl
          | cons w ws =>
            simp only [mkLAnd, simplifyLAnd, hl, hff, hflat] at he
            simp at he
            subst he
            rw [hflat] at hfl
            simp only [goodShape, Bool.and_eq_true, decide_eq_true_eq,
              labelList_toList_ofList]
            refine ⟨by simp, (goodAndOps_iff _).mpr ?_⟩
            rw [labelList_toList_ofList]
            intro q hq
            exact ⟨(hfl.1 q hq).2.1, (hfl.1 q hq).2.2, (hfl.1 q hq).1⟩

theorem mkLOr_good (args : List LabelExpr) (r : LabelExpr)
    (h : ∀ x ∈ args, goodShape x = true) (he : mkLOr args = .ok r) :
    goodShape r = true := by
  have hops : ∀ x ∈ dedupFirst args, goodShape x = true :=
    fun x hx => h x (dedupFirst_subset _ _ hx)
  cases hl : dedupFirst args with
  | nil => simp [mkLOr, simplifyLOr, hl, labelInvert, Except.map] at he
  | cons x xs =>
    cases xs with
    | nil =>
      simp only [mkLOr, simplifyLOr, hl, List.length_cons, List.length_nil] at he
      simp at he
      subst he
      exact hops x (by rw [hl]; simp)
    | cons y ys =>
      by_cases htt : LabelExpr.tt ∈ (x :: y :: ys : List LabelExpr)
      · simp [mkLOr, simplifyLOr, hl, htt] at he
      · have hgood : ∀ z ∈ (x :: y :: ys : List LabelExpr), goodShape z = true ∧ z ≠ .tt := by
          intro z hz
          refine ⟨hops z (by rw [hl]; exact hz), ?_⟩
          rintro rfl
          exact htt hz
        have hfl := flattenLOr_good _ hgood
        cases hflat : flattenLOr (x :: y :: ys : List LabelExpr) with
        | nil => rw [hflat] at hfl; simp at hfl
        | cons z zs =>
          cases zs with
          | nil => rw [hflat] at hfl; simp at hfl
          | cons w ws =>
            simp only [mkLOr, simplifyLOr, hl, htt, hflat] at he
            simp at he
            subst he
            rw [hflat] at hfl
            simp only [goodShape, Bool.and_eq_true, decide_eq_true_eq,
              labelList_toList_ofList]
            refine ⟨by simp, (goodOrOps_iff _).mpr ?_⟩
            rw [labelList_toList_ofList]
            intro q hq
            exact ⟨(hfl.1 q hq).2.1, (hfl.1 q hq).2.2, (hfl.1 q hq).1⟩

theorem built_goodShape (f : LabelExpr) (hb : Built f) : goodShape f = true := by
  induction hb with
  | atom n => rfl
  | true_lit => rfl
  | false_lit => rfl
  | alias_of n e _ ih => simpa [goodShape] using ih
  | not_of x r _ hinv ih =>
    cases x with
    | tt => simp [labelInvert] at hinv
    | ff => simp [labelInvert] at hinv
    | land ops =>
      simp only [labelInvert, Except.ok.injEq] at hinv
      subst hinv
      simpa [goodShape] using ih
    | lor ops =>
      simp only [labelInvert, Except.ok.injEq] at hinv
      subst hinv
      simpa [goodShape] using ih
    | lnot a =>
      simp only [labelInvert, Except.ok.injEq] at hinv
      subst hinv
      simpa [goodShape] using ih
    | atom p =>
      simp only [labelInvert, Except.ok.injEq] at hinv
      subst hinv
      simp [goodShape]
    | lalias n e =>
      simp only [labelInvert, Except.ok.injEq] at hinv
      subst hinv
      simpa [goodShape] using ih
  | and_of ops r _ hmk ih => exact mkLAnd_good ops r ih hmk
  | or_of ops r _ hmk ih => exact mkLOr_good ops r ih hmk

set_option maxRecDepth 4000 in
theorem acceptanceReduce_ok_iff (n : Nat) (cond : AccCond) :
    acceptanceReduce n cond = .ok cond ↔ accSets cond = Finset.range n ∧ 1 ≤ n := by
  by_cases hne : (accSets cond).Nonempty
  · have hcard_pos : 0 < (accSets cond).card := Finset.Nonempty.card_pos hne
    unfold acceptanceReduce
    rw [dif_pos hne]
    simp only [nbAcceptingSets]
    by_cases hc :
        (((accSets cond).max' hne : Nat) : Int) = ((accSets cond).card : Int) - 1
          ∧ ((accSets cond).card : Int) - 1 = (n : Int) - 1
          ∧ (n : Int) - 1 = ((accSets cond).card : Int) - 1
    · rw [if_pos hc]
      obtain ⟨hm, hcn, -⟩ := hc
      have hsum : (accSets cond).max' hne + 1 = (accSets cond).card := by omega
      have hn : (accSets cond).card = n := by omega
      have hsub : accSets cond ⊆ Finset.range ((accSets cond).max' hne + 1) := by
        intro x hx
        rw [Finset.mem_range]
        have := Finset.le_max' (accSets cond) x hx
        omega
      have heq := Finset.eq_of_subset_of_card_le hsub (by rw [Finset.card_range]; omega)
      constructor
      · intro _
        refine ⟨?_, by omega⟩
        rw [heq, hsum, hn]
      · intro _
        rfl
    · rw [if_neg hc]
      constructor
      · intro h
        exact absurd h (by simp)
      · rintro ⟨hs, hn⟩
        exfalso
        apply hc
        have hcardn : (accSets cond).card = n := by rw [hs, Finset.card_range]
        have hmax : (accSets cond).max' hne = n - 1 := by
          apply le_antisymm
          · apply Finset.max'_le
            intro x hx
            rw [hs, Finset.mem_range] at hx
            omega
          · apply Finset.le_max'
            rw [hs, Finset.mem_range]
            omega
        rw [hmax, hcardn]
        omega
  · unfold acceptanceReduce
    rw [dif_neg hne]
    constructor
    · intro h
      exact absurd h (by simp)
    · rintro ⟨hs, hn⟩
      exfalso
      apply hne
      rw [hs]
      rw [Finset.nonempty_range_iff]
      omega

/-- A well-formed automaton whose single state carries TWO acceptance
marks: its acceptance condition `Inf(0) & Inf(1)` declares sets 0 and
1, the state signature is the frozenset of 0 and 1, and the edge keeps
mark 0. -/
def aut2marks : HOA :=
  ⟨⟨"v1", ⟨.pand (.cons (.atom (infAtom 0)) (.cons (.atom (infAtom 1)) .nil)), none, []⟩,
      some 1, some [[0]], some ["a"], none, none, none, none, none⟩,
    ⟨[(⟨0, none, none, some [0, 1]⟩, [⟨[0], some (.atom 0), some [0]⟩])]⟩⟩

/-- `aut2marks` after one print/parse round trip: the state keeps only
the first of its two acceptance marks. -/
def aut2marksReparsed : HOA :=
  ⟨⟨"v1", ⟨.pand (.cons (.atom (infAtom 0)) (.cons (.atom (infAtom 1)) .nil)), none, []⟩,
      some 1, some [[0]], some ["a"], none, none, none, none, none⟩,
    ⟨[(⟨0, none, none, some [0]⟩, [⟨[0], some (.atom 0), some [0]⟩])]⟩⟩

example : parseHOA (dumpsHOA aut2marks) = .ok aut2marksReparsed := by decide

/-- A document that defines the same alias name twice. -/
def docDupAlias : String :=
  "HOA: v1\nAcceptance: 1 Inf(0)\nAlias: @a 0\nAlias: @a 1\n--BODY--\nState: 0\n--END--"

/-- The value `docDupAlias` parses to: both bindings of `@a` survive in
the aliases list. -/
def autDupAlias : HOA :=
  ⟨⟨"v1", ⟨.atom (infAtom 0), none, []⟩, none, none, none,
      some [.lalias "@a" (.atom 0), .lalias "@a" (.atom 1)], none, none, none, none⟩,
    ⟨[(⟨0, none, none, none⟩, [])]⟩⟩

/-- A document that defines `Alias: @a 0` and references `@a` in an
edge label. -/
def docAliasGood : String :=
  "HOA: v1\nAcceptance: 1 Inf(0)\nAlias: @a 0\n--BODY--\nState: 0\n[@a] 0 \x7b0\x7d\n--END--"

/-- The value `docAliasGood` parses to. -/
def autAliasGood : HOA :=
  ⟨⟨"v1", ⟨.atom (infAtom 0), none, []⟩, none, none, none, some [.lalias "@a" (.atom 0)],
      none, none, none, none⟩,
    ⟨[(⟨0, none, none, none⟩, [⟨[0], some (.lalias "@a" (.atom 0)), some [0]⟩])]⟩⟩

/-- A document whose alias line references `@a` before any definition
of `@a`. -/
def docAliasBad : String :=
  "HOA: v1\nAcceptance: 1 Inf(0)\nAlias: @b @a\n--BODY--\nState: 0\n--END--"

/-- C1 (counterexample): the universal round-trip claim
`parse(print(d)) == d` fails on the well-formed automaton `aut2marks`,
whose single state carries the two acceptance marks 0 and 1: printing
and re-parsing keeps only the first mark of the brace group, so the
re-parsed automaton differs from the original. -/
theorem claim_C1_counterexample :
    parseHOA (dumpsHOA aut2marks) = .ok aut2marksReparsed
      ∧ aut2marksReparsed ≠ aut2marks
      ∧ parseHOA (dumpsHOA aut2marks) ≠ .ok aut2marks := by decide

/-- C1 (amended): the round trip does hold for the concrete document of
the claim: parsing it yields `aut1`, and printing `aut1` and re-parsing
reproduces the equal value. -/
theorem claim_C1_amended :
    parseHOA concreteDoc = .ok aut1 ∧ parseHOA (dumpsHOA aut1) = .ok aut1 := by decide

/-- C2: constructing an operator application over a list that contains
the absorbing element does NOT return the absorbing element: the
simplification helper returns the absorbing element bare instead of as
a 1-tuple, and `MonotoneOp.__call__` then evaluates `len` on it, which
raises TypeError — in both algebras and for both operators. -/
theorem claim_C2 :
    simplifyLAnd [.atom 0, .ff] = .ok (.bare .ff)
      ∧ mkLAnd [.atom 0, .ff] = .error .typeError
      ∧ mkLOr [.atom 0, .tt] = .error .typeError
      ∧ mkPAnd [.atom (finAtom 0), .ff] = .error .typeError
      ∧ mkPOr [.atom (finAtom 0), .tt] = .error .typeError := by decide

/-- C3: invoking the And/Or smart constructors with an empty operand
list raises TypeError instead of returning the identity literal: the
empty branch evaluates `~absorbing`, and the literals implement
`__neg__` but not `__invert__` — in both the full and the positive
algebras. -/
theorem claim_C3 :
    mkLAnd [] = .error .typeError ∧ mkLOr [] = .error .typeError
      ∧ mkPAnd [] = .error .typeError ∧ mkPOr [] = .error .typeError := by decide

/-- C4 (counterexample): two of the four claimed shape invariants fail
on smart-constructed nodes. Composing `And(And(a, b), a)` from atoms
yields a node whose flattened operand tuple `(a, b, a)` has a
duplicate, and `And(True, a)` yields a node containing the identity
element of `And`. -/
theorem claim_C4_counterexample :
    (mkLAnd [.atom 0, .atom 1] = .ok (.land (.cons (.atom 0) (.cons (.atom 1) .nil)))
        ∧ mkLAnd [.land (.cons (.atom 0) (.cons (.atom 1) .nil)), .atom 0]
            = .ok (.land (.cons (.atom 0) (.cons (.atom 1) (.cons (.atom 0) .nil))))
        ∧ ¬ (LabelList.cons (.atom 0)
              (.cons (.atom 1) (.cons (.atom 0) .nil))).toList.Nodup)
      ∧ (mkLAnd [.tt, .atom 0] = .ok (.land (.cons .tt (.cons (.atom 0) .nil)))
        ∧ LabelExpr.tt ∈ (LabelList.cons .tt (.cons (.atom 0) .nil)).toList) := by decide

/-- C4 (amended): every `And`/`Or` node obtainable by composing the
smart constructors (starting from atoms, aliases and literals) has at
least two operands, none of which is a node of the same operator or
the absorbing element of that operator — but it may contain duplicate
operands (introduced by flattening a nested same-operator node) and
the identity element of its operator. -/
theorem claim_C4_amended (f : LabelExpr) (hb : Built f) : goodShape f = true :=
  built_goodShape f hb

/-- C4 (witness): the amended claim applied to the concrete
smart-constructed conjunction of two atoms. -/
theorem claim_C4_witness :
    goodShape (.land (.cons (.atom 0) (.cons (.atom 1) .nil))) = true :=
  claim_C4_amended _
    (Built.and_of [.atom 0, .atom 1] _
      (by
        intro x hx
        simp at hx
        rcases hx with rfl | rfl
        · exact Built.atom 0
        · exact Built.atom 1)
      (by decide))

/-- C5 (counterexample): for a declared count of 0 with condition `t`,
the computed accepting-set family equals `{0, ..., n-1} = ∅`, yet the
reduction fails (ValueError from `max` of an empty set) instead of
succeeding — refuting the claimed "if and only if". -/
theorem claim_C5_counterexample :
    accSets .tt = Finset.range 0 ∧ acceptanceReduce 0 .tt = .error .valueError := by decide

/-- C5 (amended): the `Acceptance:` reduction succeeds exactly when
the computed accepting sets are `{0, ..., n-1}` AND `n ≥ 1`; whenever
the computed set is empty the reduction fails (with ValueError rather
than the assertion error), even for a declared count of 0. -/
theorem claim_C5_amended (n : Nat) (cond : AccCond) :
    acceptanceReduce n cond = .ok cond ↔ accSets cond = Finset.range n ∧ 1 ≤ n :=
  acceptanceReduce_ok_iff n cond

/-- C5 (witness): the amended claim applied to `Inf(0)` with declared
count 1. -/
theorem claim_C5_witness :
    acceptanceReduce 1 (.atom (infAtom 0)) = .ok (.atom (infAtom 0)) :=
  (claim_C5_amended 1 (.atom (infAtom 0))).mpr ⟨by decide, by decide⟩

/-- C6: redefining an already-bound alias name does NOT fail: the
duplicate check tests the freshly built `LabelAlias` object for
membership among the table KEYS (alias name strings), which is always
false across classes, so the second binding silently overwrites the
table entry, and a full parse of a document with two `Alias: @a ...`
lines completes with the name bound twice in the aliases list. -/
theorem claim_C6 :
    aliasReduce [("@a", .lalias "@a" (.atom 0))] "@a" (.atom 1)
        = .ok ([("@a", .lalias "@a" (.atom 1))], .lalias "@a" (.atom 1))
      ∧ parseHOA docDupAlias = .ok autDupAlias
      ∧ autDupAlias.header.aliases
          = some [.lalias "@a" (.atom 0), .lalias "@a" (.atom 1)] := by decide

/-- C7: reducing a negated acceptance atom `Fin(!0)` passes the
positional arguments in the wrong order: the produced object carries
the integer in its `atom_type` field and the `AtomType` in its
`acceptance_set` field, which differs from the atom obtained by
negating `Fin(0)`. -/
theorem claim_C7 :
    notAcceptanceCondReduce "Fin" 0 = .ok ⟨.int 0, .ty .fin, true⟩
      ∧ AccAtom.toRaw (accAtomInvert (finAtom 0)) = ⟨.ty .fin, .int 0, true⟩
      ∧ notAcceptanceCondReduce "Fin" 0
          ≠ .ok (AccAtom.toRaw (accAtomInvert (finAtom 0))) := by decide

/-- C8: parsing a document that defines `Alias: @a 0` and references
`@a` in an edge label yields an edge labelled by the stored
`LabelAlias`, whose `propositions()` extraction equals that of the
proposition atom 0 (namely `{0}`); and a document whose alias line
references `@a` before any definition fails with the
undefined-alias error. -/
theorem claim_C8 :
    parseHOA docAliasGood = .ok autAliasGood
      ∧ autAliasGood.body.state2edges
          = [(⟨0, none, none, none⟩, [⟨[0], some (.lalias "@a" (.atom 0)), some [0]⟩])]
      ∧ propositions (.lalias "@a" (.atom 0)) = propositions (.atom 0)
      ∧ propositions (.atom 0) = ({0} : Finset Nat)
      ∧ parseHOA docAliasBad = .error .valueError := by decide

/-- C9: applying the label-algebra negation `~` to a literal raises
TypeError instead of returning the other literal (the literals
implement `__neg__`, not the `__invert__` that `~` calls); on any
non-literal operand it wraps exactly one `_Not` node, without
double-negation elimination. -/
theorem claim_C9 :
    labelInvert .tt = .error .typeError
      ∧ labelInvert .ff = .error .typeError
      ∧ labelInvert (.atom 0) = .ok (.lnot (.atom 0))
      ∧ labelInvert (.lnot (.atom 0)) = .ok (.lnot (.lnot (.atom 0))) := by decide

/-- C10: every `State` produced by the `state_name` reduction has an
acceptance signature that is absent or the singleton of the FIRST mark
of its brace group, while every `Edge` produced by the `edge`
reduction keeps the frozenset of ALL marks of its brace group. -/
theorem claim_C10 :
    (∀ (a : StateNameArgs) (s : State), stateNameReduce a = .ok s →
        s.acc_sig = none
          ∨ ∃ m rest, a.accSigChildren = some (m :: rest) ∧ s.acc_sig = some [m])
      ∧ ∀ a : EdgeArgs, (edgeReduce a).acc_sig = a.accSigChildren.map pyFrozenset := by
  constructor
  · intro a s he
    cases ha : a.accSigChildren with
    | none =>
      left
      simp [stateNameReduce, ha] at he
      rw [← he]
    | some cs =>
      cases cs with
      | nil => simp [stateNameReduce, ha] at he
      | cons m rest =>
        right
        refine ⟨m, rest, rfl, ?_⟩
        simp [stateNameReduce, ha] at he
        rw [← he]
  · intro a
    cases a with
    | mk lab conj acc =>
      cases lab <;> cases acc <;> simp [edgeReduce, Option.map]

/-- C10 (witness): the state reduction applied to a brace group with
marks 3 and 7 keeps only the first mark, and the edge reduction keeps
both. -/
theorem claim_C10_witness :
    ((⟨5, none, none, some [3]⟩ : State).acc_sig = none
        ∨ ∃ m rest, (some [3, 7] : Option (List Nat)) = some (m :: rest)
            ∧ (⟨5, none, none, some [3]⟩ : State).acc_sig = some [m])
      ∧ (edgeReduce ⟨none, [0], some [3, 7]⟩).acc_sig
          = (some [3, 7] : Option (List Nat)).map pyFrozenset :=
  ⟨claim_C10.1 ⟨5, none, none, some [3, 7]⟩ ⟨5, none, none, some [3]⟩ (by decide),
    claim_C10.2 ⟨none, [0], some [3, 7]⟩⟩
